import Mathlib

/-!
Verification development for the vippet pipeline tooling
(`graph.py`, `gst_runner.py`, `pipeline_runner.py`,
`managers/validation_manager.py`).

The Python sources are shallowly embedded: pure helpers become Lean
functions, in-place mutation becomes explicit state passing, and code that
raises exceptions returns `Except String`.  Python strings are embedded as
Lean `String`s (lists of characters); Python dicts whose insertion order is
significant are embedded as association lists with overwrite-in-place
insertion, which reproduces CPython dict semantics for the operations used
by the sources.
-/

namespace Vippet

/-! ## Python string primitives

`isPySpace` covers the ASCII whitespace characters recognised by Python's
`str.strip`, `str.split` and the regex class `\s` (the exotic Unicode
whitespace code points are not used by any input considered here, and the
development consistently treats whitespace via this predicate, mirroring
how the Python sources consistently use the library notion). -/

def isPySpace (c : Char) : Bool :=
  c = ' ' || c = '\t' || c = '\n' || c = '\r' || c = '\x0b' || c = '\x0c'

/-- Python `str.strip()` on a character list. -/
def pyStripList (cs : List Char) : List Char :=
  ((cs.dropWhile isPySpace).reverse.dropWhile isPySpace).reverse

/-- Python `str.strip()`. -/
def pyStrip (s : String) : String := ⟨pyStripList s.data⟩

/-- Python `c in s` for a single-character needle. -/
def pyContainsChar (s : String) (c : Char) : Bool := s.data.contains c

/-- Python `str.endswith`. -/
def pyEndsWith (s suffix : String) : Bool := suffix.data.isSuffixOf s.data

/-- Python `str.startswith`. -/
def pyStartsWith (s p : String) : Bool := p.data.isPrefixOf s.data

/-- Python `str.split(sep)` (single-character separator, no maxsplit):
splits on every occurrence, keeping empty pieces; the empty string yields
one empty piece. -/
def splitOnCharList (sep : Char) : List Char → List (List Char)
  | [] => [[]]
  | c :: rest =>
    if c = sep then [] :: splitOnCharList sep rest
    else
      match splitOnCharList sep rest with
      | h :: t => (c :: h) :: t
      | [] => [[c]]

def pySplit (s : String) (sep : Char) : List String :=
  (splitOnCharList sep s.data).map (fun cs => ⟨cs⟩)

/-- Python `s.split(sep, 1)` for `sep = "="`, given that `s` contains
at least one `'='`: the text before the first `'='` and the text after it. -/
def eqSplit1 (s : String) : String × String :=
  match pySplit s '=' with
  | [] => (s, "")
  | k :: rest => (k, String.intercalate "=" rest)

/-! ## Ordered string dictionaries (CPython `dict` semantics) -/

def dictGet : List (String × String) → String → Option String
  | [], _ => none
  | (k1, v) :: rest, k => if k1 = k then some v else dictGet rest k

/-- `d[k] = v`: overwrite in place if the key exists, else append. -/
def dictInsert : List (String × String) → String → String → List (String × String)
  | [], k, v => [(k, v)]
  | (k1, v1) :: rest, k, v =>
    if k1 = k then (k1, v) :: rest else (k1, v1) :: dictInsert rest k v

/-! ## Closed error type

The Python sources raise `ValueError` with message strings; following the
standard embedding of exceptions, the graph parser/serializer returns a
closed error type whose constructors carry the data interpolated into the
corresponding message (one constructor per raise site). -/

inductive PipeErr
  | capsEmptyBase (segment : String)
  | capsEmptyProperty (segment : String)
  | capsMissingEq (segment part : String)
  | capsEmptyKeyOrValue (segment part : String)
  | unrecognizedToken (value element : String)
  | teeEndWithoutTee
  | propertyUnpack (value : String)
  | emptyGraph
  | noStartNodes
  | modelNameRequired (nodeType : String)
  | modelNotSupported (nodeType name device : String)
  | modelNotFound (name nodeType : String)
  | videoPathNotFound (nodeId nodeType key name : String)
  | labelsFileNotFound (name nodeType : String)
  | moduleFileNotFound (name nodeType : String)
  | intParseFailure (value : String)
deriving DecidableEq, Repr

/-- `d.pop(k, None)`: remove the key if present (keys are unique in dicts
built by `dictInsert`). -/
def dictRemove : List (String × String) → String → List (String × String)
  | [], _ => []
  | (k1, v) :: rest, k => if k1 = k then rest else (k1, v) :: dictRemove rest k

/-! ## `graph.py`: `_parse_caps_segment` -/

/-- One comma-separated part after the base, in the shape the source
accepts: non-empty, containing `'='`, and with non-empty trimmed key and
value around the first `'='`. -/
def capsPartOk (p : String) : Bool :=
  p != "" && pyContainsChar p '=' &&
    pyStrip (eqSplit1 p).1 != "" && pyStrip (eqSplit1 p).2 != ""

/-- The property-validation loop of `_parse_caps_segment` (`graph.py`
lines 866-884): each trailing part must be `key=value` with non-empty
trimmed key and value; valid pairs are inserted into the property dict. -/
def parseCapsProps (segment : String) :
    List String → List (String × String) → Except PipeErr (List (String × String))
  | [], props => .ok props
  | p :: rest, props =>
    if p = "" then
      .error (.capsEmptyProperty segment)
    else if !(pyContainsChar p '=') then
      .error (.capsMissingEq segment p)
    else
      let k := pyStrip (eqSplit1 p).1
      let v := pyStrip (eqSplit1 p).2
      if k = "" || v = "" then
        .error (.capsEmptyKeyOrValue segment p)
      else
        parseCapsProps segment rest (dictInsert props k v)

/-- `_parse_caps_segment` (`graph.py` lines 803-886).
Returns `.ok none` when the segment is not a caps segment, `.ok (some
(base, props))` when it is, and `.error` when the segment contains a comma
but violates the caps shape. -/
def parseCapsSegment (segment : String) :
    Except PipeErr (Option (String × List (String × String))) :=
  let text := pyStrip segment
  if text = "" then .ok none
  else if !(pyContainsChar text ',') then .ok none
  else
    match (pySplit text ',').map pyStrip with
    | [] => .ok none
    | base :: rest =>
      if base = "" then .error (.capsEmptyBase segment)
      else (parseCapsProps segment rest []).map (fun props => some (base, props))

/-! Spec-side classification of a trimmed segment, written from the
specification's words (capability iff at least one comma and every part
after the first is well-shaped `key=value`; comma-containing violations
are hard parse errors; no comma is never a capability segment). -/

inductive SegClass
  | caps
  | notCaps
  | parseError
deriving DecidableEq, Repr

def resClass : Except PipeErr (Option (String × List (String × String))) → SegClass
  | .ok (some _) => .caps
  | .ok none => .notCaps
  | .error _ => .parseError

def capsShapeOk (t : String) : Bool :=
  match (pySplit t ',').map pyStrip with
  | [] => false
  | base :: rest => base != "" && rest.all capsPartOk

def specSegClass (t : String) : SegClass :=
  if !(pyContainsChar t ',') then .notCaps
  else if capsShapeOk t then .caps
  else .parseError

/-- Whether an `Except` computation succeeded. -/
def isOkB {ε α : Type} : Except ε α → Bool
  | .ok _ => true
  | .error _ => false

/-! ## `graph.py`: `_tokenize`

The source tokenizes a non-caps segment with `re.finditer` over the
alternation `PROPERTY|TEE_END|TYPE|SKIP|MISMATCH`.  We embed the regexes
with a small backtracking matcher whose preference order is that of the
Python engine (alternatives tried left to right, quantifiers greedy with
backtracking); `reMatches` lists the possible remainders of the input in
that preference order, so its head is the remainder of the match Python
returns. -/

inductive RE
  | cls (p : Char → Bool)
  | seq (a b : RE)
  | alt (a b : RE)
  | star (a : RE)
  | eos

/-- All remainders after matching `re` at the front of `cs`, in the Python
engine's backtracking-preference order (greedy quantifiers, left-to-right
alternatives).  The fuel is structural: one unit per composite node entered
and per `star` repetition.  Since every quantified body of the token
regexes consumes at least one character, a fuel of
`(input length + 2) * 8` always covers the full search (the callers below
pass that). -/
def reMatches : Nat → RE → List Char → List (List Char)
  | _, .cls _, [] => []
  | _, .cls p, c :: rest => if p c then [rest] else []
  | _, .eos, cs => if cs.isEmpty then [[]] else []
  | f + 1, .seq a b, cs => (reMatches f a cs).flatMap (fun cs2 => reMatches f b cs2)
  | f + 1, .alt a b, cs => reMatches f a cs ++ reMatches f b cs
  | f + 1, .star a, cs =>
      ((reMatches f a cs).flatMap (fun cs2 =>
        if cs2.length < cs.length then reMatches f (.star a) cs2 else [cs2])) ++ [cs]
  | 0, _, _ => []

def rePlus (r : RE) : RE := .seq r (.star r)

def reNonSpace : RE := .cls (fun c => !isPySpace c)

def reSpace : RE := .cls isPySpace

def reChar (c : Char) : RE := .cls (fun x => x = c)

/-- `PROPERTY`: the regex `\S+\s*=\s*\S+`. -/
def reProperty : RE :=
  .seq (rePlus reNonSpace)
    (.seq (.star reSpace) (.seq (reChar '=') (.seq (.star reSpace) (rePlus reNonSpace))))

/-- `TEE_END`: the regex `\S+\.(?:\s|\Z)`. -/
def reTeeEnd : RE :=
  .seq (rePlus reNonSpace) (.seq (reChar '.') (.alt reSpace .eos))

/-- `TYPE`: the regex `\S+`. -/
def reType : RE := rePlus reNonSpace

/-- `SKIP`: the regex `\s+`. -/
def reSkip : RE := rePlus reSpace

/-- `MISMATCH`: the regex `.` (any character except a newline). -/
def reMismatch : RE := .cls (fun c => c != '\n')

/-- The `token_specification` list of `_tokenize`, in source order. -/
def tokenSpecs : List (String × RE) :=
  [("PROPERTY", reProperty), ("TEE_END", reTeeEnd), ("TYPE", reType),
   ("SKIP", reSkip), ("MISMATCH", reMismatch)]

structure Token where
  kind : String
  value : String
deriving DecidableEq, Repr

/-- Match of the alternation at the front of `cs`: the first alternative
that can match wins (ordered choice), and the consumed length is that of
its preferred match.  Returns the group name and the consumed length. -/
def firstMatchAt : List (String × RE) → List Char → Option (String × Nat)
  | [], _ => none
  | (name, re) :: rest, cs =>
    match reMatches ((cs.length + 2) * 8) re cs with
    | r :: _ => some (name, cs.length - r.length)
    | [] => firstMatchAt rest cs

/-- The `re.finditer` scan of `_tokenize`: repeatedly find the next match,
strip the matched text, and drop `SKIP` tokens.  A position where the
pattern cannot match is skipped (as `finditer` does); the fuel is
`input length + 1`, sufficient because every alternative of the token
pattern consumes at least one character. -/
def scanTokens : Nat → List Char → List Token
  | 0, _ => []
  | _ + 1, [] => []
  | fuel + 1, c :: cs =>
    match firstMatchAt tokenSpecs (c :: cs) with
    | none => scanTokens fuel cs
    | some (name, n) =>
      let rest := (c :: cs).drop (max n 1)
      if name = "SKIP" then scanTokens fuel rest
      else { kind := name, value := pyStrip ⟨(c :: cs).take n⟩ } :: scanTokens fuel rest

def tokenize (element : String) : List Token :=
  scanTokens (element.data.length + 1) element.data

/-! ## `graph.py`: data model -/

structure Node where
  id : String
  type : String
  data : List (String × String)
deriving DecidableEq, Repr

structure Edge where
  id : String
  source : String
  target : String
deriving DecidableEq, Repr

structure Graph where
  nodes : List Node
  edges : List Edge
deriving DecidableEq, Repr

/-- `NODE_KIND_KEY`. -/
def nodeKindKey : String := "__node_kind"

/-- `NODE_KIND_CAPS`. -/
def nodeKindCaps : String := "caps"

/-! ## External resource collaborators

`graph.py` consults process-wide singleton managers (installed models,
videos, labels, scripts) that live outside this module; they are passed
explicitly as a record of lookup functions.  `InstalledModel.modelProcFull`
is a string whose emptiness encodes Python falsiness of
`model.model_proc_full`. -/

structure InstalledModel where
  displayName : String
  modelPathFull : String
  modelProcFull : String

structure Lookups where
  findInstalledModelByModelAndProcPath : String → Option String → Option InstalledModel
  findInstalledModelByDisplayName : String → Option InstalledModel
  isModelSupportedOnDevice : String → String → Bool
  getVideoFilename : String → Option String
  getVideoPath : String → Option String
  labelsGetFilename : String → String
  labelsGetPath : String → Option String
  scriptsGetFilename : String → String
  scriptsGetPath : String → Option String

/-- Python truthiness of an optional string result (`None` and `""` are
falsy). -/
def pyTruthy : Option String → Bool
  | none => false
  | some s => s != ""

/-! ## `graph.py`: parse-side path-normalisation passes -/

/-- `_model_path_to_display_name` (`graph.py` 1268-1313). -/
def modelPathToDisplayName (L : Lookups) (nodes : List Node) : List Node :=
  nodes.map (fun node =>
    match dictGet node.data "model" with
    | none => node
    | some modelPath =>
      let procPath := dictGet node.data "model-proc"
      let d :=
        match L.findInstalledModelByModelAndProcPath modelPath procPath with
        | some m => dictInsert node.data "model" m.displayName
        | none => dictInsert node.data "model" ""
      { node with data := dictRemove d "model-proc" })

/-- One key of `_input_video_path_to_display_name`. -/
def videoKeyToName (L : Lookups) (d : List (String × String)) (key : String) :
    List (String × String) :=
  match dictGet d key with
  | none => d
  | some path =>
    match L.getVideoFilename path with
    | some f => if f != "" then dictInsert d key f else dictInsert d key ""
    | none => dictInsert d key ""

/-- `_input_video_path_to_display_name` (`graph.py` 1450-1488). -/
def inputVideoPathToDisplayName (L : Lookups) (nodes : List Node) : List Node :=
  nodes.map (fun node =>
    if pyEndsWith node.type "sink" then node
    else { node with data := videoKeyToName L (videoKeyToName L node.data "source") "location" })

/-- One key of `_labels_path_to_display_name`. -/
def labelsKeyToName (L : Lookups) (d : List (String × String)) (key : String) :
    List (String × String) :=
  match dictGet d key with
  | none => d
  | some path => dictInsert d key (L.labelsGetFilename path)

/-- `_labels_path_to_display_name` (`graph.py` 1537-1570). -/
def labelsPathToDisplayName (L : Lookups) (nodes : List Node) : List Node :=
  nodes.map (fun node =>
    if node.type = "gvadetect" || node.type = "gvaclassify" then
      { node with data := labelsKeyToName L (labelsKeyToName L node.data "labels") "labels-file" }
    else node)

/-- `_module_path_to_display_name` (`graph.py` 1616-1649). -/
def modulePathToDisplayName (L : Lookups) (nodes : List Node) : List Node :=
  nodes.map (fun node =>
    if node.type = "gvapython" then
      match dictGet node.data "module" with
      | none => node
      | some path => { node with data := dictInsert node.data "module" (L.scriptsGetFilename path) }
    else node)

/-! ## `graph.py`: the graph builder (`from_pipeline_description`) -/

structure BuildSt where
  nodes : List Node
  edges : List Edge
  /-- Stack of tee node ids; the most recently pushed id is at the head
  (Python appends and pops at the end of its list). -/
  teeStack : List String
  prevKind : Option String
  nodeId : Nat
  edgeId : Nat
deriving Repr

/-- The edge-source selection shared verbatim by `_add_caps_node` and
`_add_node`: pop the tee stack when the previous token was a branch
endpoint, else connect linearly from `node_id - 1`. -/
def edgeSourceFor (st : BuildSt) : Except PipeErr (String × List String) :=
  if st.prevKind = some "TEE_END" then
    match st.teeStack with
    | [] => .error .teeEndWithoutTee
    | s :: rest => .ok (s, rest)
  else .ok (toString (st.nodeId - 1), st.teeStack)

/-- `_add_caps_node` (`graph.py` 947-1035).  The node's data is the dict
literal `{NODE_KIND_KEY: caps, **caps_props}`. -/
def addCapsNode (st : BuildSt) (capsBase : String) (capsProps : List (String × String)) :
    Except PipeErr BuildSt :=
  let nid := toString st.nodeId
  let dataWithKind := capsProps.foldl (fun d kv => dictInsert d kv.1 kv.2) [(nodeKindKey, nodeKindCaps)]
  let st1 := { st with nodes := st.nodes ++ [{ id := nid, type := capsBase, data := dataWithKind }] }
  if st1.nodeId > 0 then
    match edgeSourceFor st1 with
    | .error e => .error e
    | .ok (src, stack) =>
      .ok { st1 with
              edges := st1.edges ++ [{ id := toString st1.edgeId, source := src, target := nid }],
              teeStack := stack,
              edgeId := st1.edgeId + 1 }
  else .ok st1

/-- `_add_node` (`graph.py` 1038-1112). -/
def addNode (st : BuildSt) (value : String) : Except PipeErr BuildSt :=
  let nid := toString st.nodeId
  let st1 := { st with nodes := st.nodes ++ [{ id := nid, type := value, data := [] }] }
  let step2 : Except PipeErr BuildSt :=
    if st1.nodeId > 0 then
      match edgeSourceFor st1 with
      | .error e => .error e
      | .ok (src, stack) =>
        .ok { st1 with
                edges := st1.edges ++ [{ id := toString st1.edgeId, source := src, target := nid }],
                teeStack := stack,
                edgeId := st1.edgeId + 1 }
    else .ok st1
  match step2 with
  | .error e => .error e
  | .ok st2 =>
    if value = "tee" then .ok { st2 with teeStack := nid :: st2.teeStack }
    else .ok st2

/-- Python `re.split(r"\s*=\s*", s, maxsplit=1)` when the result is
unpacked into two names: split at the first `'='`, absorbing the
whitespace run immediately before and after it; `none` when `s` has no
`'='` (the unpacking then raises). -/
def pyEqWsSplit1 (s : String) : Option (String × String) :=
  let cs := s.data
  match cs.findIdx? (fun c => c = '=') with
  | none => none
  | some e =>
    let key := ((cs.take e).reverse.dropWhile isPySpace).reverse
    let value := (cs.drop (e + 1)).dropWhile isPySpace
    some (⟨key⟩, ⟨value⟩)

/-- `_add_property_to_last_node` (`graph.py` 1115-1144). -/
def addPropertyToLastNode (st : BuildSt) (value : String) : Except PipeErr BuildSt :=
  match st.nodes.getLast? with
  | none => .ok st
  | some lastNode =>
    match pyEqWsSplit1 value with
    | none => .error (.propertyUnpack value)
    | some (k, v) =>
      .ok { st with
              nodes := st.nodes.dropLast ++ [{ lastNode with data := dictInsert lastNode.data k v }] }

/-- The token-dispatch loop of `from_pipeline_description`
(`graph.py` 232-259). -/
def processTokens (element : String) : BuildSt → List Token → Except PipeErr BuildSt
  | st, [] => .ok st
  | st, tok :: rest =>
    let step : Except PipeErr BuildSt :=
      if tok.kind = "TYPE" then addNode st tok.value
      else if tok.kind = "PROPERTY" then addPropertyToLastNode st tok.value
      else if tok.kind = "TEE_END" then .ok st
      else if tok.kind = "MISMATCH" then .error (.unrecognizedToken tok.value element)
      else .ok st
    match step with
    | .error e => .error e
    | .ok st2 => processTokens element { st2 with prevKind := some tok.kind } rest

/-- One trimmed, non-empty segment of `from_pipeline_description`
(`graph.py` 205-261). -/
def processSegment (st : BuildSt) (element : String) : Except PipeErr BuildSt :=
  match parseCapsSegment element with
  | .error e => .error e
  | .ok (some (base, props)) =>
    match addCapsNode st base props with
    | .error e => .error e
    | .ok st2 => .ok { st2 with prevKind := some "CAPS", nodeId := st2.nodeId + 1 }
  | .ok none =>
    match processTokens element st (tokenize element) with
    | .error e => .error e
    | .ok st2 => .ok { st2 with nodeId := st2.nodeId + 1 }

def buildSegments : BuildSt → List String → Except PipeErr BuildSt
  | st, [] => .ok st
  | st, raw :: rest =>
    let element := pyStrip raw
    if element = "" then buildSegments st rest
    else
      match processSegment st element with
      | .error e => .error e
      | .ok st2 => buildSegments st2 rest

def initialBuildSt : BuildSt :=
  { nodes := [], edges := [], teeStack := [], prevKind := none, nodeId := 0, edgeId := 0 }

/-- `Graph.from_pipeline_description` (`graph.py` 145-273). -/
def fromPipelineDescription (L : Lookups) (s : String) : Except PipeErr Graph :=
  match buildSegments initialBuildSt (pySplit s '!') with
  | .error e => .error e
  | .ok st =>
    .ok { nodes :=
            modulePathToDisplayName L (labelsPathToDisplayName L
              (inputVideoPathToDisplayName L (modelPathToDisplayName L st.nodes))),
          edges := st.edges }

/-! ## `graph.py`: the graph serializer (`to_pipeline_description`) -/

/-- Association lists keyed by strings (CPython `dict` with non-string
values: overwrite in place, insertion order preserved). -/
def alistGet {α : Type} : List (String × α) → String → Option α
  | [], _ => none
  | (k1, v) :: rest, k => if k1 = k then some v else alistGet rest k

def alistInsert {α : Type} : List (String × α) → String → α → List (String × α)
  | [], k, v => [(k, v)]
  | (k1, v1) :: rest, k, v =>
    if k1 = k then (k1, v) :: rest else (k1, v1) :: alistInsert rest k v

/-- `defaultdict(list)` append. -/
def alistAppend (m : List (String × List String)) (k v : String) :
    List (String × List String) :=
  match alistGet m k with
  | some l => alistInsert m k (l ++ [v])
  | none => m ++ [(k, [v])]

/-- The `edges_from` adjacency map: `edges_from[edge.source].append(edge.target)`
in edge order. -/
def edgesFrom (edges : List Edge) : List (String × List String) :=
  edges.foldl (fun m e => alistAppend m e.source e.target) []

/-- The `tee_names` map: names of nodes of type `"tee"` that carry a
`"name"` property. -/
def teeNames (nodes : List Node) : List (String × String) :=
  nodes.foldl
    (fun m node =>
      if node.type = "tee" then
        match dictGet node.data "name" with
        | some nm => dictInsert m node.id nm
        | none => m
      else m) []

/-- Stable insertion into a sorted list (`lt` strict): later elements land
after equal ones, as in Python's stable sort. -/
def insertSorted {α : Type} (lt : α → α → Bool) (x : α) : List α → List α
  | [] => [x]
  | y :: ys => if lt x y then x :: y :: ys else y :: insertSorted lt x ys

/-- Python `sorted` (stable). -/
def pySortedBy {α : Type} (lt : α → α → Bool) (l : List α) : List α :=
  l.foldl (fun acc x => insertSorted lt x acc) []

def strLt (a b : String) : Bool := decide (a < b)

/-- Keep the first occurrence of each element, skipping ones already seen. -/
def dedupFirstAux : List String → List String → List String
  | [], _ => []
  | x :: xs, seen =>
    if seen.contains x then dedupFirstAux xs seen
    else x :: dedupFirstAux xs (x :: seen)

/-- Keep the first occurrence of each element (the key order of a dict
built by repeated insertion). -/
def dedupFirst (l : List String) : List String := dedupFirstAux l []

/-- `_validate_models_supported_on_devices` (`graph.py` 1403-1447). -/
def validateModelsSupportedOnDevices (L : Lookups) : List Node → Except PipeErr Unit
  | [] => .ok ()
  | node :: rest =>
    match dictGet node.data "model" with
    | none => validateModelsSupportedOnDevices L rest
    | some name =>
      match dictGet node.data "device" with
      | none => validateModelsSupportedOnDevices L rest
      | some device =>
        if name = "" then .error (.modelNameRequired node.type)
        else if !(L.isModelSupportedOnDevice name device) then
          .error (.modelNotSupported node.type name device)
        else validateModelsSupportedOnDevices L rest

/-- `_insert_model_proc_after_model` (`graph.py` 1365-1400): rebuild the
dict, dropping any existing `model-proc` and re-inserting it right after
`model`. -/
def insertModelProcAfterModel (d : List (String × String)) (procPath : String) :
    List (String × String) :=
  match d with
  | [] => []
  | (k, v) :: rest =>
    if k = "model-proc" then insertModelProcAfterModel rest procPath
    else if k = "model" then
      (k, v) :: ("model-proc", procPath) :: insertModelProcAfterModel rest procPath
    else (k, v) :: insertModelProcAfterModel rest procPath

/-- `_model_display_name_to_path` (`graph.py` 1316-1362). -/
def modelDisplayNameToPath (L : Lookups) : List Node → Except PipeErr (List Node)
  | [] => .ok []
  | node :: rest =>
    match dictGet node.data "model" with
    | none => (modelDisplayNameToPath L rest).map (fun ns => node :: ns)
    | some name =>
      match L.findInstalledModelByDisplayName name with
      | none => .error (.modelNotFound name node.type)
      | some m =>
        let d := dictInsert node.data "model" m.modelPathFull
        let d := if m.modelProcFull != "" then insertModelProcAfterModel d m.modelProcFull else d
        (modelDisplayNameToPath L rest).map (fun ns => { node with data := d } :: ns)

/-- One key of `_input_video_name_to_path`. -/
def videoKeyToPath (L : Lookups) (node : Node) (d : List (String × String)) (key : String) :
    Except PipeErr (List (String × String)) :=
  match dictGet d key with
  | none => .ok d
  | some name =>
    match L.getVideoPath name with
    | some p =>
      if p != "" then .ok (dictInsert d key p)
      else .error (.videoPathNotFound node.id node.type key name)
    | none => .error (.videoPathNotFound node.id node.type key name)

/-- `_input_video_name_to_path` (`graph.py` 1491-1534). -/
def inputVideoNameToPath (L : Lookups) : List Node → Except PipeErr (List Node)
  | [] => .ok []
  | node :: rest =>
    if pyEndsWith node.type "sink" then (inputVideoNameToPath L rest).map (fun ns => node :: ns)
    else
      match videoKeyToPath L node node.data "source" with
      | .error e => .error e
      | .ok d1 =>
        match videoKeyToPath L node d1 "location" with
        | .error e => .error e
        | .ok d2 => (inputVideoNameToPath L rest).map (fun ns => { node with data := d2 } :: ns)

/-- One key of `_labels_name_to_path`. -/
def labelsKeyToPath (L : Lookups) (node : Node) (d : List (String × String)) (key : String) :
    Except PipeErr (List (String × String)) :=
  match dictGet d key with
  | none => .ok d
  | some name =>
    match L.labelsGetPath name with
    | some p =>
      if p != "" then .ok (dictInsert d key p)
      else .error (.labelsFileNotFound name node.type)
    | none => .error (.labelsFileNotFound name node.type)

/-- `_labels_name_to_path` (`graph.py` 1573-1613). -/
def labelsNameToPath (L : Lookups) : List Node → Except PipeErr (List Node)
  | [] => .ok []
  | node :: rest =>
    if node.type = "gvadetect" || node.type = "gvaclassify" then
      match labelsKeyToPath L node node.data "labels" with
      | .error e => .error e
      | .ok d1 =>
        match labelsKeyToPath L node d1 "labels-file" with
        | .error e => .error e
        | .ok d2 => (labelsNameToPath L rest).map (fun ns => { node with data := d2 } :: ns)
    else (labelsNameToPath L rest).map (fun ns => node :: ns)

/-- `_module_name_to_path` (`graph.py` 1652-1692). -/
def moduleNameToPath (L : Lookups) : List Node → Except PipeErr (List Node)
  | [] => .ok []
  | node :: rest =>
    if node.type = "gvapython" then
      match dictGet node.data "module" with
      | none => (moduleNameToPath L rest).map (fun ns => node :: ns)
      | some name =>
        match L.scriptsGetPath name with
        | some p =>
          if p != "" then
            (moduleNameToPath L rest).map (fun ns =>
              { node with data := dictInsert node.data "module" p } :: ns)
          else .error (.moduleFileNotFound name node.type)
        | none => .error (.moduleFileNotFound name node.type)
    else (moduleNameToPath L rest).map (fun ns => node :: ns)

/-- Whether a node is a caps node (discriminator key set to `"caps"`). -/
def isCapsNode (node : Node) : Bool := dictGet node.data nodeKindKey == some nodeKindCaps

/-- The text fragments one node contributes to `result_parts`
(`graph.py` 1206-1234). -/
def nodeParts (node : Node) : List String :=
  if isCapsNode node then
    let propsItems := node.data.filter (fun kv => kv.1 != nodeKindKey)
    if propsItems.isEmpty then [node.type]
    else
      [node.type ++ "," ++ String.intercalate "," (propsItems.map (fun kv => kv.1 ++ "=" ++ kv.2))]
  else
    node.type :: node.data.map (fun kv => kv.1 ++ "=" ++ kv.2)

/-- `_build_chain` (`graph.py` 1147-1265): walk forward from a node,
emitting fragments; at a fan-out, follow the first branch inline and emit
the remaining branches with the `name.` endpoint notation.  The fuel
bounds the recursion depth; every recursive entry that does any work adds
one id to `visited`, so `nodes + edges + 2` levels always suffice. -/
def buildChain (nodeById : List (String × Node)) (efm : List (String × List String))
    (tn : List (String × String)) :
    Nat → String → List String → List String → (List String × List String)
  | 0, _, visited, parts => (visited, parts)
  | fuel + 1, currentId, visited, parts =>
    if currentId = "" || currentId ∈ visited then (visited, parts)
    else
      let visited := currentId :: visited
      match alistGet nodeById currentId with
      | none => (visited, parts)
      | some node =>
        let parts := parts ++ nodeParts node
        match (alistGet efm currentId).getD [] with
        | [] => (visited, parts)
        | [t] => buildChain nodeById efm tn fuel t visited (parts ++ ["!"])
        | t :: t2 :: ts =>
          let r1 := buildChain nodeById efm tn fuel t visited (parts ++ ["!"])
          (t2 :: ts).foldl
            (fun r ti =>
              let teeName := (dictGet tn currentId).getD "t"
              buildChain nodeById efm tn fuel ti r.1 (r.2 ++ [teeName ++ ".", "!"]))
            r1

/-- `Graph.to_pipeline_description` (`graph.py` 275-350). -/
def toPipelineDescription (L : Lookups) (g : Graph) : Except PipeErr String :=
  if g.nodes.isEmpty then .error .emptyGraph
  else
    match validateModelsSupportedOnDevices L g.nodes with
    | .error e => .error e
    | .ok _ =>
      match modelDisplayNameToPath L g.nodes with
      | .error e => .error e
      | .ok ns1 =>
        match inputVideoNameToPath L ns1 with
        | .error e => .error e
        | .ok ns2 =>
          match labelsNameToPath L ns2 with
          | .error e => .error e
          | .ok ns3 =>
            match moduleNameToPath L ns3 with
            | .error e => .error e
            | .ok nodes =>
              let nodeById := nodes.foldl (fun m n => alistInsert m n.id n) []
              let efm := edgesFrom g.edges
              let tn := teeNames nodes
              let targetIds := g.edges.map (fun e => e.target)
              let ids := dedupFirst (nodes.map (fun n => n.id))
              let startNodes := ids.filter (fun i => !(targetIds.contains i))
              if startNodes.isEmpty then .error .noStartNodes
              else
                let fuel := nodes.length + g.edges.length + 2
                let r := (pySortedBy strLt startNodes).foldl
                  (fun (acc : List String × List String) sid =>
                    if sid ∈ acc.1 then acc
                    else buildChain nodeById efm tn fuel sid acc.1 acc.2)
                  ([], [])
                .ok (String.intercalate " " r.2)

/-! ## Concrete instances used to evaluate claims on specific inputs -/

/-- A benign lookup record for evaluating the parser on inputs that carry
no model/video/labels/script properties (every pass is then a no-op for
any lookup record, and the theorems below that take an arbitrary `L`
show the independence explicitly). -/
def noLookups : Lookups :=
  { findInstalledModelByModelAndProcPath := fun _ _ => none,
    findInstalledModelByDisplayName := fun _ => none,
    isModelSupportedOnDevice := fun _ _ => true,
    getVideoFilename := fun _ => none,
    getVideoPath := fun _ => none,
    labelsGetFilename := fun s => s,
    labelsGetPath := fun _ => none,
    scriptsGetFilename := fun s => s,
    scriptsGetPath := fun _ => none }

/-- The graph that `from_pipeline_description` produces for
`filesrc ! tee name=t ! queue ! sink1 t. ! queue ! sink2`. -/
def teeFanoutGraph : Graph :=
  { nodes := [{ id := "0", type := "filesrc", data := [] },
              { id := "1", type := "tee", data := [("name", "t")] },
              { id := "2", type := "queue", data := [] },
              { id := "3", type := "sink1", data := [] },
              { id := "4", type := "queue", data := [] },
              { id := "5", type := "sink2", data := [] }],
    edges := [{ id := "0", source := "0", target := "1" },
              { id := "1", source := "1", target := "2" },
              { id := "2", source := "2", target := "3" },
              { id := "3", source := "1", target := "4" },
              { id := "4", source := "4", target := "5" }] }

/-! ## C7: node-id structure of parsed graphs -/

def nodeIds (nodes : List Node) : List String := nodes.map Node.id

/-- The ids are decimal renderings of a nondecreasing list of naturals all
bounded by `bound`. -/
def IdsUpTo (ids : List String) (bound : Nat) : Prop :=
  ∃ ks : List Nat, ids = ks.map (fun k => toString k) ∧
    List.Chain' (· ≤ ·) ks ∧ ∀ k ∈ ks, k ≤ bound

/-- The graph parsed from `filesrc ! queue`. -/
def twoNodeGraph : Graph :=
  { nodes := [{ id := "0", type := "filesrc", data := [] },
              { id := "1", type := "queue", data := [] }],
    edges := [{ id := "0", source := "0", target := "1" }] }

/-- The graph parsed from `filesrc ! tee name=t ! t. ! queue`: the third
segment consists only of the branch endpoint `t.`, creates no node, yet
advances the segment counter, so the node ids have a gap. -/
def gapIdsGraph : Graph :=
  { nodes := [{ id := "0", type := "filesrc", data := [] },
              { id := "1", type := "tee", data := [("name", "t")] },
              { id := "3", type := "queue", data := [] }],
    edges := [{ id := "0", source := "0", target := "1" },
              { id := "1", source := "1", target := "3" }] }

/-- Whether an error is the unrecognized-token error of the graph builder. -/
def isUnrecErr : PipeErr → Bool
  | .unrecognizedToken _ _ => true
  | _ => false

/-- Whether a parse result is the unrecognized-token error. -/
def isUnrecTokenErr {α : Type} : Except PipeErr α → Bool
  | .error e => isUnrecErr e
  | .ok _ => false

/-! ## `graph.py`: `apply_simple_view_changes`

This function raises `ValueError`s whose message text the specification
references, so it is embedded with `Except String` carrying the messages
(without the quote characters around interpolated values).  Python-`set`
iteration order is implementation-defined; it is modeled as first-occurrence
order, which only affects which of several same-class offenders is named in
a message, never whether or which class of error is raised. -/

/-- Replace the data of the first node with the given id. -/
def setDataFirst : List Node → String → List (String × String) → List Node
  | [], _, _ => []
  | n :: rest, nid, d =>
    if n.id = nid then { n with data := d } :: rest
    else n :: setDataFirst rest nid d

/-- Replace the data of the last node with the given id (the object the
Python id-keyed dict refers to). -/
def setDataLast (nodes : List Node) (nid : String) (d : List (String × String)) :
    List Node :=
  (setDataFirst nodes.reverse nid d).reverse

/-- `Graph.apply_simple_view_changes` (`graph.py` 523-710). -/
def applySimpleViewChanges (modifiedSimple originalSimple originalAdvanced : Graph) :
    Except String Graph :=
  let originalNodeIds := dedupFirst (originalSimple.nodes.map Node.id)
  let modifiedNodeIds := dedupFirst (modifiedSimple.nodes.map Node.id)
  let addedNodeIds := modifiedNodeIds.filter (fun i => !(originalNodeIds.contains i))
  if !addedNodeIds.isEmpty then
    .error ("Node additions are not supported in simple view. Added nodes: "
      ++ String.intercalate ", " (pySortedBy strLt addedNodeIds)
      ++ ". Please use advanced view to add new nodes.")
  else
    let removedNodeIds := originalNodeIds.filter (fun i => !(modifiedNodeIds.contains i))
    if !removedNodeIds.isEmpty then
      .error ("Node removals are not supported in simple view. Removed nodes: "
        ++ String.intercalate ", " (pySortedBy strLt removedNodeIds)
        ++ ". Please use advanced view to remove nodes.")
    else
      let originalEdgesById := originalSimple.edges.foldl (fun m e => alistInsert m e.id e) []
      let modifiedEdgesById := modifiedSimple.edges.foldl (fun m e => alistInsert m e.id e) []
      let originalEdgeIds := dedupFirst (originalSimple.edges.map Edge.id)
      let modifiedEdgeIds := dedupFirst (modifiedSimple.edges.map Edge.id)
      let addedEdgeIds := modifiedEdgeIds.filter (fun i => !(originalEdgeIds.contains i))
      if !addedEdgeIds.isEmpty then
        .error ("Edge additions are not supported in simple view. Added edges: "
          ++ String.intercalate ", " ((pySortedBy strLt addedEdgeIds).map (fun eid =>
              match alistGet modifiedEdgesById eid with
              | some e => "id=" ++ eid ++ " (" ++ e.source ++ " -> " ++ e.target ++ ")"
              | none => ""))
          ++ ". Please use advanced view to modify graph structure.")
      else
        let removedEdgeIds := originalEdgeIds.filter (fun i => !(modifiedEdgeIds.contains i))
        if !removedEdgeIds.isEmpty then
          .error ("Edge removals are not supported in simple view. Removed edges: "
            ++ String.intercalate ", " ((pySortedBy strLt removedEdgeIds).map (fun eid =>
                match alistGet originalEdgesById eid with
                | some e => "id=" ++ eid ++ " (" ++ e.source ++ " -> " ++ e.target ++ ")"
                | none => ""))
            ++ ". Please use advanced view to modify graph structure.")
        else
          let changedEdgeIds := originalEdgeIds.filter (fun eid =>
            match alistGet originalEdgesById eid, alistGet modifiedEdgesById eid with
            | some oe, some me => oe.source != me.source || oe.target != me.target
            | _, _ => false)
          if !changedEdgeIds.isEmpty then
            .error ("Edge modifications are not supported in simple view. Modified edges: "
              ++ String.intercalate ", " (changedEdgeIds.map (fun eid =>
                  match alistGet originalEdgesById eid, alistGet modifiedEdgesById eid with
                  | some oe, some me =>
                    "id=" ++ eid ++ " changed from (" ++ oe.source ++ " -> " ++ oe.target
                      ++ ") to (" ++ me.source ++ " -> " ++ me.target ++ ")"
                  | _, _ => ""))
              ++ ". Please use advanced view to modify graph structure.")
          else
            let originalNodesById := originalSimple.nodes.foldl (fun m n => alistInsert m n.id n) []
            let modifiedNodesById := modifiedSimple.nodes.foldl (fun m n => alistInsert m n.id n) []
            match modifiedNodeIds.find? (fun nid =>
              match alistGet originalNodesById nid, alistGet modifiedNodesById nid with
              | some onode, some mnode => onode.type != mnode.type
              | _, _ => false) with
            | some nid =>
              .error ("Node type changes are not supported in simple view. Node " ++ nid
                ++ " type changed from "
                ++ (match alistGet originalNodesById nid with
                    | some onode => onode.type
                    | none => "")
                ++ " to "
                ++ (match alistGet modifiedNodesById nid with
                    | some mnode => mnode.type
                    | none => "")
                ++ ". Please use advanced view to modify node types.")
            | none =>
              let changedDataIds := modifiedNodeIds.filter (fun nid =>
                match alistGet originalNodesById nid, alistGet modifiedNodesById nid with
                | some onode, some mnode => onode.data != mnode.data
                | _, _ => false)
              let advancedNodesById :=
                originalAdvanced.nodes.foldl (fun m n => alistInsert m n.id n) []
              match changedDataIds.find? (fun nid => (alistGet advancedNodesById nid).isNone) with
              | some nid =>
                .error ("Internal error: Node " ++ nid
                  ++ " from simple view not found in advanced view. "
                  ++ "This indicates a mismatch between the simple and advanced graph representations.")
              | none =>
                .ok { nodes :=
                        changedDataIds.foldl (fun ns nid =>
                          match alistGet modifiedNodesById nid with
                          | some mnode => setDataLast ns nid mnode.data
                          | none => ns) originalAdvanced.nodes,
                      edges := originalAdvanced.edges }

/-! ## C4: the merge rejects structural edits in a fixed priority order -/

inductive ViolationKind
  | nodeAdded
  | nodeRemoved
  | edgeAdded
  | edgeRemoved
  | edgeChanged
  | typeChanged
deriving DecidableEq, Repr

/-- Spec-side: the first structural violation of the edit, in the
priority order stated by the specification — node additions, node
removals, added edge ids, removed edge ids, retained edges with changed
endpoints, retained nodes with changed type. -/
def specFirstViolation (ms os : Graph) : Option ViolationKind :=
  let oNodeIds := dedupFirst (os.nodes.map Node.id)
  let mNodeIds := dedupFirst (ms.nodes.map Node.id)
  let oEdgesById := os.edges.foldl (fun m e => alistInsert m e.id e) []
  let mEdgesById := ms.edges.foldl (fun m e => alistInsert m e.id e) []
  let oEdgeIds := dedupFirst (os.edges.map Edge.id)
  let mEdgeIds := dedupFirst (ms.edges.map Edge.id)
  let oNodesById := os.nodes.foldl (fun m n => alistInsert m n.id n) []
  let mNodesById := ms.nodes.foldl (fun m n => alistInsert m n.id n) []
  if mNodeIds.any (fun i => !(oNodeIds.contains i)) then some .nodeAdded
  else if oNodeIds.any (fun i => !(mNodeIds.contains i)) then some .nodeRemoved
  else if mEdgeIds.any (fun i => !(oEdgeIds.contains i)) then some .edgeAdded
  else if oEdgeIds.any (fun i => !(mEdgeIds.contains i)) then some .edgeRemoved
  else if oEdgeIds.any (fun eid =>
      match alistGet oEdgesById eid, alistGet mEdgesById eid with
      | some oe, some me => oe.source != me.source || oe.target != me.target
      | _, _ => false) then some .edgeChanged
  else if mNodeIds.any (fun nid =>
      match alistGet oNodesById nid, alistGet mNodesById nid with
      | some onode, some mnode => onode.type != mnode.type
      | _, _ => false) then some .typeChanged
  else none

/-- Classify a merge result by the start of its error message. -/
def resultViolation : Except String Graph → Option ViolationKind
  | .ok _ => none
  | .error msg =>
    if pyStartsWith msg "Node additions" then some .nodeAdded
    else if pyStartsWith msg "Node removals" then some .nodeRemoved
    else if pyStartsWith msg "Edge additions" then some .edgeAdded
    else if pyStartsWith msg "Edge removals" then some .edgeRemoved
    else if pyStartsWith msg "Edge modifications" then some .edgeChanged
    else if pyStartsWith msg "Node type changes" then some .typeChanged
    else none

/-! ## `graph.py`: `to_simple_view` -/

/-- Python `int(s)` for strings: optional sign and decimal digits after
stripping whitespace (CPython additionally allows underscores between
digits; no id used here has them, and the claims never rely on
that corner). `none` models the `ValueError`. -/
def pyDigitsToNat : List Char → Option Nat
  | [] => none
  | cs =>
    if cs.all (fun c => c.isDigit) then
      some (cs.foldl (fun n c => n * 10 + (c.toNat - 48)) 0)
    else none

def pyToIntString (s : String) : Option Int :=
  match pyStripList s.data with
  | '+' :: rest => (pyDigitsToNat rest).map Int.ofNat
  | '-' :: rest => (pyDigitsToNat rest).map (fun n => -(n : Int))
  | cs => (pyDigitsToNat cs).map Int.ofNat

/-- Numeric sort key `int(node_id)` (only evaluated on ids the pre-check
below has already validated). -/
def intIdLt (a b : String) : Bool :=
  decide ((pyToIntString a).getD 0 < (pyToIntString b).getD 0)

/-- `_is_node_visible` (`graph.py` 713-746): caps nodes are always
hidden; otherwise visibility is decided by matching the node type against
the configured wildcard patterns, abstracted as `typeMatches` (the
patterns come from the `SIMPLE_VIEW_VISIBLE_ELEMENTS` environment
variable). -/
def isNodeVisible (typeMatches : String → Bool) (node : Node) : Bool :=
  if dictGet node.data nodeKindKey == some nodeKindCaps then false
  else typeMatches node.type

/-- The breadth-first search of `_find_visible_targets` (`graph.py`
749-800): pop the queue head; skip visited ids; collect visible ids;
extend the queue through hidden ids.  Every step consumes one queue
element and one unit of fuel. -/
def bfsVisibleTargets (efm : List (String × List String)) (visibleIds : List String) :
    Nat → List String → List String → List String → List String
  | 0, _, _, targets => targets
  | _ + 1, [], _, targets => targets
  | fuel + 1, currentId :: queue, visited, targets =>
    if visited.contains currentId then
      bfsVisibleTargets efm visibleIds fuel queue visited targets
    else
      if visibleIds.contains currentId then
        bfsVisibleTargets efm visibleIds fuel queue (currentId :: visited) (targets ++ [currentId])
      else
        bfsVisibleTargets efm visibleIds fuel (queue ++ (alistGet efm currentId).getD [])
          (currentId :: visited) targets

/-- `_find_visible_targets` (`graph.py` 749-800).  Each node is expanded
at most once and each expansion enqueues one adjacency list, so the
initial queue plus the total number of edges bounds the number of BFS
steps. -/
def findVisibleTargets (efm : List (String × List String)) (visibleIds : List String)
    (sourceId : String) (edgeCount : Nat) : List String :=
  let queue := (alistGet efm sourceId).getD []
  bfsVisibleTargets efm visibleIds (queue.length + edgeCount + 1) queue [] []

/-- The edge-generation loop of `to_simple_view` (`graph.py` 493-516):
one direct edge per (visible source, sorted visible target) pair, edge ids
assigned from a counter starting at 0. -/
def genSimpleEdges (tgts : String → List String) (srcs : List String) :
    List Edge × Nat :=
  srcs.foldl
    (fun (acc : List Edge × Nat) vid =>
      (tgts vid).foldl
        (fun (acc2 : List Edge × Nat) tid =>
          (acc2.1 ++ [{ id := toString acc2.2, source := vid, target := tid }], acc2.2 + 1))
        acc)
    ([], 0)

/-- `Graph.to_simple_view` (`graph.py` 440-521).  The `int(...)` sort keys
raise on a non-numeric visible node id; that exception is modeled by the
up-front check. -/
def toSimpleView (typeMatches : String → Bool) (g : Graph) : Except PipeErr Graph :=
  let visibleNodeIds :=
    dedupFirst ((g.nodes.filter (isNodeVisible typeMatches)).map Node.id)
  match visibleNodeIds.find? (fun i => (pyToIntString i).isNone) with
  | some i => .error (.intParseFailure i)
  | none =>
    let efm := edgesFrom g.edges
    let simpleNodes :=
      pySortedBy (fun n1 n2 => intIdLt n1.id n2.id)
        (g.nodes.filter (fun n => visibleNodeIds.contains n.id))
    let sortedVisibleIds := pySortedBy intIdLt visibleNodeIds
    let r := genSimpleEdges
      (fun vid => pySortedBy intIdLt (findVisibleTargets efm visibleNodeIds vid g.edges.length))
      sortedVisibleIds
    .ok { nodes := simpleNodes, edges := r.1 }

/-! ## `gst_runner.py`: the execution state machine

The run loop (`_PipelineRunner.run`, lines 501-593) is concurrent: a
GLib main loop delivers bus messages to `_on_bus_message` until one of
them quits the loop, a background timer thread may stop the pipeline at
max-runtime, and after the loop the bus is drained.  It is embedded as a
function of the messages the loop delivers (`loopMsgs`), whether the
max-runtime timer fires while the loop is otherwise blocked
(`timerFires`), and the late messages seen only by the post-loop drain
(`lateMsgs`); messages after the quit point stay on the bus and are
drained.  A run with no terminal message and no timer never exits the
loop: it has no outcome (`none`).  The recorded `reason` strings are
never empty, so Python's `x or y` on them is `Option.getD`. -/

inductive BusMsg
  | error
  | eos
  | warning
  | stateChanged
  | other
deriving DecidableEq, Repr

structure RunState where
  errorSeen : Bool
  eosSeen : Bool
  maxRuntimeTriggered : Bool
  reason : Option String
deriving DecidableEq, Repr

def initialRunState : RunState :=
  { errorSeen := false, eosSeen := false, maxRuntimeTriggered := false, reason := none }

/-- `_on_bus_message` (`gst_runner.py` 436-464). -/
def onBusMessage (m : BusMsg) (st : RunState) : RunState :=
  match m with
  | .error => { st with errorSeen := true, reason := some (st.reason.getD "error") }
  | .eos => { st with eosSeen := true }
  | _ => st

/-- Whether `_on_bus_message` quits the main loop on this message. -/
def quitsLoop (m : BusMsg) : Bool :=
  match m with
  | .error => true
  | .eos => true
  | _ => false

/-- One main-loop execution: deliver messages until one quits the loop.
Returns the state, the undelivered messages (still on the bus), and
whether the loop was quit by a message. -/
def processLoop : List BusMsg → RunState → (RunState × List BusMsg × Bool)
  | [], st => (st, [], false)
  | m :: rest, st =>
    let st2 := onBusMessage m st
    if quitsLoop m then (st2, rest, true)
    else processLoop rest st2

/-- `_max_runtime_enforcement_thread` (`gst_runner.py` 466-499): a no-op
when an ERROR or EOS already terminated the run, else records the
max-runtime stop and quits the loop. -/
def maxRuntimeFire (st : RunState) : RunState :=
  if st.errorSeen || st.eosSeen then st
  else { st with maxRuntimeTriggered := true, reason := some (st.reason.getD "max_runtime") }

/-- `drain_bus_messages` (`gst_runner.py` 210-257): true iff an ERROR
message was drained. -/
def drainBusMessages (msgs : List BusMsg) : Bool :=
  msgs.any (fun m => m == .error)

/-- `_PipelineRunner.run` (`gst_runner.py` 501-593). -/
def pipelineRun (loopMsgs : List BusMsg) (timerFires : Bool) (lateMsgs : List BusMsg) :
    Option (Bool × Option String) :=
  match processLoop loopMsgs initialRunState with
  | (st, remaining, quit) =>
    let exitState : Option RunState :=
      if quit then some st
      else if timerFires then some (maxRuntimeFire st)
      else none
    match exitState with
    | none => none
    | some st2 =>
      let st3 :=
        if drainBusMessages (remaining ++ lateMsgs) then
          if !st2.errorSeen then
            { st2 with errorSeen := true, reason := some (st2.reason.getD "error") }
          else st2
        else st2
      if st3.errorSeen then some (false, some "error")
      else if st3.maxRuntimeTriggered && !st3.errorSeen then some (true, some "max_runtime")
      else some (true, none)

/-! ## C6: validation-mode outcome (`pipeline_runner.py` 153-257) -/

/-- One step of Python `str.splitlines`: a line boundary is `\r\n`,
`\r`, `\n`, or one of the extra Unicode boundary characters Python
recognises; a trailing boundary does not produce a final empty line. -/
def isLineBoundary (c : Char) : Bool :=
  c = '\n' || c = '\r' || c = '\x0b' || c = '\x0c' ||
  c = '\x1c' || c = '\x1d' || c = '\x1e' || c = '\u0085' ||
  c = '\u2028' || c = '\u2029'

def splitlinesAux : List Char → List Char → List (List Char)
  | [], acc => if acc.isEmpty then [] else [acc.reverse]
  | '\r' :: '\n' :: rest, acc => acc.reverse :: splitlinesAux rest []
  | c :: rest, acc =>
    if isLineBoundary c then acc.reverse :: splitlinesAux rest []
    else splitlinesAux rest (c :: acc)

/-- Python `str.splitlines` (`"" → []`, `"a\n" → ["a"]`, `"\n" → [""]`). -/
def pySplitlines (s : String) : List String :=
  (splitlinesAux s.data []).map (fun cs => ⟨cs⟩)

/-- The fixed logger prefix `_parse_validation_stderr` recognises. -/
def gstErrorMarker : String := "gst_runner - ERROR - "

/-- `PipelineRunner._parse_validation_stderr` (`pipeline_runner.py`
224-257): keep only lines starting with the fixed marker, drop the
marker, strip the remainder, and discard lines whose remainder strips
to the empty string. -/
def parseValidationStderr (rawStderr : String) : List String :=
  if rawStderr.data.isEmpty then []
  else
    (pySplitlines rawStderr).filterMap (fun line =>
      if pyStartsWith line gstErrorMarker then
        let content := pyStrip ⟨line.data.drop gstErrorMarker.data.length⟩
        if content.data.isEmpty then none else some content
      else none)

/-- The tail of `PipelineRunner._run_validation` (`pipeline_runner.py`
216-222): the run is valid iff the exit code is 0 and stderr parsing
produced no error messages. -/
def validationOutcome (returncode : Int) (stderr : String) : Bool × List String :=
  let errors := parseValidationStderr stderr
  (returncode == 0 && errors.isEmpty, errors)

/-- The claim's validity predicate, written from its words: exit code 0
and no captured diagnostic line starts with the fixed marker. -/
def specValidC6 (returncode : Int) (stderr : String) : Bool :=
  returncode == 0 &&
    !((pySplitlines stderr).any (fun l => pyStartsWith l gstErrorMarker))

/-- Amended-spec predicate for C6: a captured line survives parsing iff
it starts with the fixed marker AND the remainder after the marker does
not strip to the empty string. -/
def survivingErrLine (l : String) : Bool :=
  pyStartsWith l gstErrorMarker &&
    !(pyStrip ⟨l.data.drop gstErrorMarker.data.length⟩).data.isEmpty

/-! ## C9: validation job submission (`managers/validation_manager.py` 92-158) -/

/-- A JSON-ish parameter value as it may arrive in a validation request
(container values, which like `pyNone` never coerce to `int`, are not
needed for the claims and are omitted). -/
inductive PyVal where
  | pyInt : Int → PyVal
  | pyStr : String → PyVal
  | pyBool : Bool → PyVal
  | pyNone : PyVal
deriving DecidableEq, Repr

/-- Python `int(x)` on a parameter value: ints pass through, bools
become 0/1, strings go through the stripped sign-and-digits parse, and
`None` raises (= `none`). -/
def pyIntCoerce : PyVal → Option Int
  | .pyInt n => some n
  | .pyStr s => pyToIntString s
  | .pyBool b => some (if b then 1 else 0)
  | .pyNone => none

/-- `dict.get` over the request parameter mapping. -/
def pvGet : List (String × PyVal) → String → Option PyVal
  | [], _ => none
  | (k1, v) :: rest, k => if k1 = k then some v else pvGet rest k

/-- One tracked validation job (`ValidationJob`), with the runtime-only
fields defaulted exactly as the dataclass defaults them. -/
structure VJob where
  id : String
  pipelineDescription : String
  state : String
  startTime : Int
  endTime : Option Int := none
  isValid : Option Bool := none
  errorMessage : Option (List String) := none
deriving DecidableEq, Repr

/-- `jobs[job_id] = job` on the registry. -/
def jobsInsert : List (String × VJob) → String → VJob → List (String × VJob)
  | [], k, v => [(k, v)]
  | (k1, v1) :: rest, k, v =>
    if k1 = k then (k1, v) :: rest else (k1, v1) :: jobsInsert rest k v

/-- The two synchronous failure modes of `run_validation`: a failure
while serialising the graph, or a `ValueError` from parameter
validation. -/
inductive SubmitErr where
  | graphErr : PipeErr → SubmitErr
  | paramErr : String → SubmitErr
deriving DecidableEq, Repr

/-- The worker-thread arguments handed to `_execute_validation` when a
job is actually started. -/
structure SpawnArgs where
  jobId : String
  description : String
  maxRuntime : Int
  hardTimeout : Int
deriving DecidableEq, Repr

/-- `ValidationManager.run_validation` (`validation_manager.py` 92-158):
serialise the graph first, then validate `max-runtime` (default 10; must
coerce to an int ≥ 1), then create the RUNNING job, insert it into the
registry and spawn the worker. Returns the updated registry, the
synchronous result, and the spawned worker (if any). The Python error
strings quote the parameter name; the quotes are elided here. -/
def runValidation (L : Lookups) (jobs : List (String × VJob)) (pipelineGraph : Graph)
    (parameters : Option (List (String × PyVal))) (newJobId : String)
    (startTime : Int) :
    List (String × VJob) × Except SubmitErr String × Option SpawnArgs :=
  match toPipelineDescription L pipelineGraph with
  | .error e => (jobs, .error (.graphErr e), none)
  | .ok desc =>
    let params := parameters.getD []
    let maxRuntimeVal := (pvGet params "max-runtime").getD (.pyInt 10)
    match pyIntCoerce maxRuntimeVal with
    | none =>
      (jobs, .error (.paramErr "Parameter max-runtime must be an integer."), none)
    | some mr =>
      if mr < 1 then
        (jobs,
         .error (.paramErr "Parameter max-runtime must be greater than or equal to 1."),
         none)
      else
        let hardTimeout := mr + 60
        let job : VJob :=
          { id := newJobId, pipelineDescription := desc, state := "RUNNING",
            startTime := startTime }
        (jobsInsert jobs newJobId job, .ok newJobId,
         some { jobId := newJobId, description := desc, maxRuntime := mr,
                hardTimeout := hardTimeout })

/-! ## C5: FPS metric extraction and selection (`pipeline_runner.py` 258-500)

A captured output line is abstracted to the result of the three
`re.search` calls performed on it: the optional `(total, number-streams,
per-stream)` groups of the `overall`, `average` and `last` FpsCounter
patterns.  `float` values are only stored and copied, never computed
with, so they are embedded as `ℚ`; the `number-streams` group is `\d+`,
hence a natural number, and `total_streams` (a stream count) likewise. -/

structure FpsStats where
  totalFps : ℚ
  numberStreams : Nat
  perStreamFps : ℚ
deriving DecidableEq, Repr

structure FpsLine where
  overall : Option FpsStats
  avg : Option FpsStats
  last : Option FpsStats
deriving DecidableEq, Repr

/-- `avg_fps_dict[k] = v` (Python int-keyed dict: overwrite in place,
else append). -/
def natDictInsert (k : Nat) (v : FpsStats) :
    List (Nat × FpsStats) → List (Nat × FpsStats)
  | [] => [(k, v)]
  | (k1, v1) :: rest =>
    if k1 = k then (k1, v) :: rest else (k1, v1) :: natDictInsert k v rest

def natDictGet : List (Nat × FpsStats) → Nat → Option FpsStats
  | [], _ => none
  | (k1, v) :: rest, k => if k1 = k then some v else natDictGet rest k

/-- The loop state of the metric-extraction pass: the winning `overall`
match (if the loop broke), the `average` dict and the latest `last`
match. -/
structure ExtractSt where
  overallHit : Option FpsStats
  avgDict : List (Nat × FpsStats)
  lastFps : Option FpsStats
deriving DecidableEq, Repr

/-- The `average` and `last` updates a single line contributes
(`pipeline_runner.py` 422-438). -/
def stepAvgLast (line : FpsLine) (st : ExtractSt) : ExtractSt :=
  let st1 :=
    match line.avg with
    | some r => { st with avgDict := natDictInsert r.numberStreams r st.avgDict }
    | none => st
  match line.last with
  | some r => { st1 with lastFps := some r }
  | none => st1

/-- The `for line in process_output` loop (`pipeline_runner.py`
405-438): an `overall` match with the configured stream count wins and
`break`s; otherwise the line's `average`/`last` matches are folded in. -/
def extractLoop (totalStreams : Nat) : List FpsLine → ExtractSt → ExtractSt
  | [], st => st
  | line :: rest, st =>
    match line.overall with
    | some r =>
      if r.numberStreams = totalStreams then { st with overallHit := some r }
      else extractLoop totalStreams rest (stepAvgLast line st)
    | none => extractLoop totalStreams rest (stepAvgLast line st)

/-- `abs(x - total_streams)` on stream counts. -/
def distNat (a b : Nat) : Nat := if a ≤ b then b - a else a - b

/-- Python `min(keys, key=lambda x: abs(x - total_streams))`: fold over
the remaining keys, replacing the best only on a strict improvement, so
the FIRST minimal key wins. -/
def minKeyAux (totalStreams : Nat) (best : Nat) : List Nat → Nat
  | [] => best
  | k :: rest =>
    minKeyAux totalStreams
      (if distNat k totalStreams < distNat best totalStreams then k else best) rest

def fpsTriple (r : FpsStats) : ℚ × Nat × ℚ :=
  (r.totalFps, r.numberStreams, r.perStreamFps)

/-- The fallback chain after the loop (`pipeline_runner.py` 441-472):
`overall` winner, else the exact `average` dict entry, else the entry of
the closest key, else the `last` entry, else zeros. -/
def selectMetrics (totalStreams : Nat) (st : ExtractSt) : ℚ × Nat × ℚ :=
  match st.overallHit with
  | some r => fpsTriple r
  | none =>
    match st.avgDict with
    | [] =>
      match st.lastFps with
      | some r => fpsTriple r
      | none => (0, 0, 0)
    | (k0, v0) :: rest =>
      match natDictGet ((k0, v0) :: rest) totalStreams with
      | some r => fpsTriple r
      | none =>
        let ck := minKeyAux totalStreams k0 (rest.map Prod.fst)
        match natDictGet ((k0, v0) :: rest) ck with
        | some r => fpsTriple r
        | none => (0, 0, 0)

def initialExtractSt : ExtractSt :=
  { overallHit := none, avgDict := [], lastFps := none }

/-- End-to-end metric reporting of `_run_normal` as a function of the
classified output lines. -/
def runNormalMetrics (totalStreams : Nat) (lines : List FpsLine) : ℚ × Nat × ℚ :=
  selectMetrics totalStreams (extractLoop totalStreams lines initialExtractSt)

/-! Spec-side definitions for C5, written from the claim's words. -/

/-- The first `overall` match whose stream count equals the configured
one. -/
def specOverallWin (total : Nat) (lines : List FpsLine) : Option FpsStats :=
  (lines.filterMap (fun l =>
    match l.overall with
    | some r => if r.numberStreams = total then some r else none
    | none => none)).head?

/-- All `average` entries for a given stream count, in order. -/
def avgEntriesFor (k : Nat) (lines : List FpsLine) : List FpsStats :=
  lines.filterMap (fun l =>
    match l.avg with
    | some r => if r.numberStreams = k then some r else none
    | none => none)

/-- The most recent `average` entry for a given stream count. -/
def specAvgLatest (k : Nat) (lines : List FpsLine) : Option FpsStats :=
  (avgEntriesFor k lines).getLast?

/-- First-occurrence deduplication relative to an already-seen list. -/
def natDedupSeen : List Nat → List Nat → List Nat
  | [], _ => []
  | k :: rest, seen =>
    if seen.contains k then natDedupSeen rest seen
    else k :: natDedupSeen rest (seen ++ [k])

/-- The distinct stream counts carrying an `average` entry, in first
appearance order. -/
def avgStreamKeys (lines : List FpsLine) : List Nat :=
  natDedupSeen (lines.filterMap (fun l => (l.avg).map FpsStats.numberStreams)) []

/-- The most recently seen `last` entry. -/
def specLastEntry (lines : List FpsLine) : Option FpsStats :=
  (lines.filterMap FpsLine.last).getLast?

/-- Three lines carrying only `average` matches (stream counts 1, 4, 1),
used to exercise the closest-key fallback at a configured count of 2. -/
def fpsLinesExample : List FpsLine :=
  [⟨none, some ⟨7, 1, 7⟩, none⟩,
   ⟨none, some ⟨8, 4, 2⟩, none⟩,
   ⟨none, some ⟨9, 1, 9⟩, none⟩]

theorem splitOnCharList_ne_nil (sep : Char) (cs : List Char) :
    splitOnCharList sep cs ≠ [] := by
  cases cs with
  | nil => simp [splitOnCharList]
  | cons c rest =>
    simp only [splitOnCharList]
    split
    · simp
    · split <;> simp

theorem parseCapsProps_isOk (segment : String) (parts : List String)
    (props : List (String × String)) :
    isOkB (parseCapsProps segment parts props) = parts.all capsPartOk := by
  induction parts generalizing props with
  | nil => rfl
  | cons p rest ih =>
    simp only [parseCapsProps, List.all_cons, capsPartOk]
    by_cases hp : p = ""
    · subst hp
      simp [isOkB]
    · simp only [if_neg hp]
      by_cases hc : pyContainsChar p '=' = true
      · simp only [hc, Bool.not_true, Bool.false_eq_true, if_false]
        by_cases hk : pyStrip (eqSplit1 p).1 = ""
        · simp [hk, isOkB]
        · by_cases hv : pyStrip (eqSplit1 p).2 = ""
          · simp [hk, hv, isOkB]
          · simp [hk, hv, ih, hp]
      · simp only [Bool.not_eq_true] at hc
        simp [hc, isOkB, hp]

/-- C1 helper: the classification performed by `_parse_caps_segment`
matches the specification's classification of the trimmed segment. -/
theorem parseCapsSegment_class (s : String) :
    resClass (parseCapsSegment s) = specSegClass (pyStrip s) := by
  unfold parseCapsSegment specSegClass
  by_cases h0 : pyStrip s = ""
  · rw [h0]
    have : pyContainsChar "" ',' = false := rfl
    simp [this, resClass]
  · simp only [if_neg h0]
    by_cases hc : pyContainsChar (pyStrip s) ',' = true
    · simp only [hc, Bool.not_true, Bool.false_eq_true, if_false]
      unfold capsShapeOk
      cases hsp : (pySplit (pyStrip s) ',').map pyStrip with
      | nil =>
        exfalso
        have := splitOnCharList_ne_nil ',' (pyStrip s).data
        simp only [pySplit, List.map_eq_nil_iff] at hsp
        exact this hsp
      | cons base rest =>
        by_cases hb : base = ""
        · simp [hb, resClass]
        · simp only [if_neg hb, bne_iff_ne, ne_eq, hb, not_false_eq_true, true_and]
          have hok := parseCapsProps_isOk s rest []
          cases hres : parseCapsProps s rest [] with
          | ok props =>
            rw [hres] at hok
            simp only [isOkB] at hok
            simp [Except.map, resClass, ← hok, hb]
          | error e =>
            rw [hres] at hok
            simp only [isOkB] at hok
            simp [Except.map, resClass, ← hok, hb]
    · simp only [Bool.not_eq_true] at hc
      simp [hc, resClass]

/-- C1: for every segment (the parser trims it first), `_parse_caps_segment`
classifies the trimmed text as a capability segment iff it contains at least
one comma and, after splitting on commas, every part after the first is a
well-shaped `key=value` with non-empty trimmed key and value (and a
non-empty base); a comma-containing segment violating this shape raises a
parse error immediately; a segment without a comma is never classified as
caps (nor an error). -/
theorem caps_segment_classification (s : String) :
    (resClass (parseCapsSegment s) = .caps ↔
      (pyContainsChar (pyStrip s) ',' = true ∧ capsShapeOk (pyStrip s) = true)) ∧
    (resClass (parseCapsSegment s) = .parseError ↔
      (pyContainsChar (pyStrip s) ',' = true ∧ capsShapeOk (pyStrip s) = false)) ∧
    (resClass (parseCapsSegment s) = .notCaps ↔
      pyContainsChar (pyStrip s) ',' = false) := by
  have h := parseCapsSegment_class s
  unfold specSegClass at h
  by_cases hc : pyContainsChar (pyStrip s) ',' = true
  · by_cases hs : capsShapeOk (pyStrip s) = true
    · simp [hc, hs] at h
      simp [h, hc, hs]
    · simp only [Bool.not_eq_true] at hs
      simp [hc, hs] at h
      simp [h, hc, hs]
  · simp only [Bool.not_eq_true] at hc
    simp [hc] at h
    simp [h, hc]

/-- C2: parsing `filesrc ! tee name=t ! queue ! sink1 t. ! queue ! sink2`
produces a graph in which the unique node of type `tee` has exactly 2
outgoing edges, and serializing that graph back reproduces the
description, with the non-inline branch rendered via the `t.` endpoint
notation (for any resource-lookup collaborators: none of the nodes carry
path-bearing properties). -/
theorem tee_branch_fanout_roundtrip (L : Lookups) :
    fromPipelineDescription L "filesrc ! tee name=t ! queue ! sink1 t. ! queue ! sink2" =
      .ok teeFanoutGraph ∧
    (teeFanoutGraph.nodes.filter (fun n => n.type == "tee")).map
      (fun n => (teeFanoutGraph.edges.filter (fun e => e.source == n.id)).length) = [2] ∧
    toPipelineDescription L teeFanoutGraph =
      .ok "filesrc ! tee name=t ! queue ! sink1 t. ! queue ! sink2" :=
  ⟨by rfl, by rfl, by rfl⟩

theorem idsUpTo_nil (b : Nat) : IdsUpTo [] b :=
  ⟨[], rfl, List.chain'_nil, by simp⟩

theorem idsUpTo_mono {ids : List String} {b b2 : Nat} (h : IdsUpTo ids b)
    (hb : b ≤ b2) : IdsUpTo ids b2 := by
  obtain ⟨ks, hmap, hchain, hbound⟩ := h
  exact ⟨ks, hmap, hchain, fun k hk => le_trans (hbound k hk) hb⟩

theorem idsUpTo_snoc {ids : List String} {b : Nat} (h : IdsUpTo ids b) :
    IdsUpTo (ids ++ [toString b]) b := by
  obtain ⟨ks, hmap, hchain, hbound⟩ := h
  refine ⟨ks ++ [b], ?_, ?_, ?_⟩
  · simp [hmap]
  · rw [List.chain'_append]
    refine ⟨hchain, List.chain'_singleton _, ?_⟩
    intro x hx y hy
    simp only [List.head?_cons, Option.mem_def, Option.some.injEq] at hy
    subst hy
    obtain ⟨hne, hxeq⟩ := List.mem_getLast?_eq_getLast hx
    exact hbound x (hxeq ▸ List.getLast_mem hne)
  · intro k hk
    rcases List.mem_append.mp hk with hk | hk
    · exact hbound k hk
    · simp only [List.mem_singleton] at hk
      exact hk ▸ le_refl b

theorem addNode_ids {st : BuildSt} {v : String} {st2 : BuildSt}
    (h : addNode st v = .ok st2) :
    nodeIds st2.nodes = nodeIds st.nodes ++ [toString st.nodeId] ∧
    st2.nodeId = st.nodeId := by
  unfold addNode at h
  simp only at h
  split at h
  · exact absurd h (by simp)
  · rename_i st2' hstep
    split at hstep
    · split at hstep
      · exact absurd hstep (by simp)
      · rename_i heq
        injection hstep with hstep
        subst hstep
        split at h <;> (injection h with h; subst h; simp [nodeIds])
    · injection hstep with hstep
      subst hstep
      split at h <;> (injection h with h; subst h; simp [nodeIds])

theorem addCapsNode_ids {st : BuildSt} {base : String}
    {props : List (String × String)} {st2 : BuildSt}
    (h : addCapsNode st base props = .ok st2) :
    nodeIds st2.nodes = nodeIds st.nodes ++ [toString st.nodeId] ∧
    st2.nodeId = st.nodeId := by
  unfold addCapsNode at h
  simp only at h
  split at h
  · split at h
    · exact absurd h (by simp)
    · injection h with h
      subst h
      simp [nodeIds]
  · injection h with h
    subst h
    simp [nodeIds]

theorem addPropertyToLastNode_ids {st : BuildSt} {v : String} {st2 : BuildSt}
    (h : addPropertyToLastNode st v = .ok st2) :
    nodeIds st2.nodes = nodeIds st.nodes ∧ st2.nodeId = st.nodeId := by
  unfold addPropertyToLastNode at h
  split at h
  · injection h with h
    subst h
    exact ⟨rfl, rfl⟩
  · rename_i lastNode hlast
    split at h
    · exact absurd h (by simp)
    · injection h with h
      subst h
      refine ⟨?_, rfl⟩
      simp only [nodeIds, List.map_append, List.map_dropLast]
      conv_rhs => rw [← List.dropLast_append_getLast? lastNode hlast]
      simp

theorem processTokens_ids {el : String} (toks : List Token) :
    ∀ {st st2 : BuildSt}, processTokens el st toks = .ok st2 →
      IdsUpTo (nodeIds st.nodes) st.nodeId →
      IdsUpTo (nodeIds st2.nodes) st2.nodeId ∧ st2.nodeId = st.nodeId := by
  induction toks with
  | nil =>
    intro st st2 h hids
    injection h with h
    subst h
    exact ⟨hids, rfl⟩
  | cons tok rest ih =>
    intro st st2 h hids
    unfold processTokens at h
    simp only at h
    split at h
    · exact absurd h (by simp)
    · rename_i stm hstep
      have hrec := ih h
      split at hstep
      · obtain ⟨happ, hid⟩ := addNode_ids hstep
        have : IdsUpTo (nodeIds stm.nodes) stm.nodeId := by
          rw [happ, hid]
          exact idsUpTo_snoc hids
        obtain ⟨h1, h2⟩ := hrec this
        exact ⟨h1, by rw [h2]; exact hid⟩
      · split at hstep
        · obtain ⟨hkeep, hid⟩ := addPropertyToLastNode_ids hstep
          have : IdsUpTo (nodeIds stm.nodes) stm.nodeId := by
            rw [hkeep, hid]; exact hids
          obtain ⟨h1, h2⟩ := hrec this
          exact ⟨h1, by rw [h2]; exact hid⟩
        · split at hstep
          · injection hstep with hstep
            subst hstep
            exact hrec hids
          · split at hstep
            · exact absurd hstep (by simp)
            · injection hstep with hstep
              subst hstep
              exact hrec hids

theorem processSegment_ids {st : BuildSt} {el : String} {st2 : BuildSt}
    (h : processSegment st el = .ok st2)
    (hids : IdsUpTo (nodeIds st.nodes) st.nodeId) :
    IdsUpTo (nodeIds st2.nodes) st2.nodeId := by
  unfold processSegment at h
  split at h
  · exact absurd h (by simp)
  · rename_i base props heq
    split at h
    · exact absurd h (by simp)
    · rename_i stc hcaps
      injection h with h
      subst h
      obtain ⟨happ, hid⟩ := addCapsNode_ids hcaps
      simp only
      have : IdsUpTo (nodeIds stc.nodes) stc.nodeId := by
        rw [happ, hid]; exact idsUpTo_snoc hids
      exact idsUpTo_mono this (Nat.le_succ _)
  · split at h
    · exact absurd h (by simp)
    · rename_i stt htoks
      injection h with h
      subst h
      obtain ⟨h1, _⟩ := processTokens_ids (tokenize el) htoks hids
      exact idsUpTo_mono h1 (Nat.le_succ _)

theorem buildSegments_ids (segs : List String) :
    ∀ {st st2 : BuildSt}, buildSegments st segs = .ok st2 →
      IdsUpTo (nodeIds st.nodes) st.nodeId →
      IdsUpTo (nodeIds st2.nodes) st2.nodeId := by
  induction segs with
  | nil =>
    intro st st2 h hids
    injection h with h
    subst h
    exact hids
  | cons raw rest ih =>
    intro st st2 h hids
    unfold buildSegments at h
    simp only at h
    split at h
    · exact ih h hids
    · split at h
      · exact absurd h (by simp)
      · rename_i stm hseg
        exact ih h (processSegment_ids hseg hids)

theorem modelPathToDisplayName_ids (L : Lookups) (nodes : List Node) :
    nodeIds (modelPathToDisplayName L nodes) = nodeIds nodes := by
  simp only [nodeIds, modelPathToDisplayName, List.map_map]
  apply List.map_congr_left
  intro node _
  simp only [Function.comp_apply]
  cases dictGet node.data "model" with
  | none => rfl
  | some p =>
    cases L.findInstalledModelByModelAndProcPath p (dictGet node.data "model-proc") <;> rfl

theorem inputVideoPathToDisplayName_ids (L : Lookups) (nodes : List Node) :
    nodeIds (inputVideoPathToDisplayName L nodes) = nodeIds nodes := by
  simp only [nodeIds, inputVideoPathToDisplayName, List.map_map]
  apply List.map_congr_left
  intro node _
  simp only [Function.comp_apply]
  split <;> rfl

theorem labelsPathToDisplayName_ids (L : Lookups) (nodes : List Node) :
    nodeIds (labelsPathToDisplayName L nodes) = nodeIds nodes := by
  simp only [nodeIds, labelsPathToDisplayName, List.map_map]
  apply List.map_congr_left
  intro node _
  simp only [Function.comp_apply]
  split <;> rfl

theorem modulePathToDisplayName_ids (L : Lookups) (nodes : List Node) :
    nodeIds (modulePathToDisplayName L nodes) = nodeIds nodes := by
  simp only [nodeIds, modulePathToDisplayName, List.map_map]
  apply List.map_congr_left
  intro node _
  simp only [Function.comp_apply]
  split
  · cases dictGet node.data "module" <;> rfl
  · rfl

/-- C7 (amended): for every pipeline description that parses successfully,
the node ids are decimal renderings of a nondecreasing sequence of
naturals — the segment indices; the sequence need not start at 0 nor be
dense nor strictly increasing (see the counterexample). -/
theorem parsed_node_ids_nondecreasing (L : Lookups) (s : String) (g : Graph)
    (h : fromPipelineDescription L s = .ok g) :
    ∃ ks : List Nat, g.nodes.map Node.id = ks.map (fun k => toString k) ∧
      List.Chain' (· ≤ ·) ks := by
  unfold fromPipelineDescription at h
  split at h
  · exact absurd h (by simp)
  · rename_i st hbuild
    injection h with h
    subst h
    have h0 : IdsUpTo (nodeIds initialBuildSt.nodes) initialBuildSt.nodeId :=
      idsUpTo_nil _
    obtain ⟨ks, hmap, hchain, _⟩ := buildSegments_ids _ hbuild h0
    refine ⟨ks, ?_, hchain⟩
    show nodeIds _ = _
    rw [modulePathToDisplayName_ids, labelsPathToDisplayName_ids,
      inputVideoPathToDisplayName_ids, modelPathToDisplayName_ids]
    exact hmap

theorem parsed_node_ids_nondecreasing_witness :
    ∃ ks : List Nat, twoNodeGraph.nodes.map Node.id = ks.map (fun k => toString k) ∧
      List.Chain' (· ≤ ·) ks :=
  parsed_node_ids_nondecreasing noLookups "filesrc ! queue" twoNodeGraph (by rfl)

/-- C7 counterexample: `filesrc ! tee name=t ! t. ! queue` parses
successfully, but the node ids are `0, 1, 3` — not the dense sequence
`0, 1, 2` the claim asserts. -/
theorem parsed_node_ids_not_dense :
    fromPipelineDescription noLookups "filesrc ! tee name=t ! t. ! queue" =
      .ok gapIdsGraph ∧
    gapIdsGraph.nodes.map Node.id ≠
      (List.range gapIdsGraph.nodes.length).map (fun i => toString i) :=
  ⟨by rfl, by decide⟩

/-! ## C10: the tokenizer never yields `MISMATCH`, so the graph builder's
unrecognized-token branch is unreachable -/

theorem reMatches_star_ne_nil (f : Nat) (a : RE) (cs : List Char) :
    reMatches (f + 1) (.star a) cs ≠ [] := by
  simp [reMatches]

theorem reMatches_plus_cls_ne_nil (f : Nat) (p : Char → Bool) (c : Char)
    (cs : List Char) (hp : p c = true) :
    reMatches (f + 2) (.seq (.cls p) (.star (.cls p))) (c :: cs) ≠ [] := by
  simp [reMatches, hp]

theorem firstMatchAt_not_mismatch (c : Char) (cs : List Char) (name : String) (n : Nat)
    (h : firstMatchAt tokenSpecs (c :: cs) = some (name, n)) : name ≠ "MISMATCH" := by
  have hfuel : ((c :: cs).length + 2) * 8 = (cs.length * 8 + 22) + 2 := by
    simp only [List.length_cons]
    ring
  simp only [tokenSpecs, firstMatchAt] at h
  cases hm1 : reMatches (((c :: cs).length + 2) * 8) reProperty (c :: cs) with
  | cons r rs =>
    rw [hm1] at h
    simp only [Option.some.injEq, Prod.mk.injEq] at h
    rcases h with ⟨h1, -⟩
    subst h1
    decide
  | nil =>
    rw [hm1] at h
    simp only at h
    cases hm2 : reMatches (((c :: cs).length + 2) * 8) reTeeEnd (c :: cs) with
    | cons r rs =>
      rw [hm2] at h
      simp only [Option.some.injEq, Prod.mk.injEq] at h
      rcases h with ⟨h1, -⟩
      subst h1
      decide
    | nil =>
      rw [hm2] at h
      simp only at h
      cases hm3 : reMatches (((c :: cs).length + 2) * 8) reType (c :: cs) with
      | cons r rs =>
        rw [hm3] at h
        simp only [Option.some.injEq, Prod.mk.injEq] at h
        rcases h with ⟨h1, -⟩
        subst h1
        decide
      | nil =>
        rw [hm3] at h
        simp only at h
        cases hm4 : reMatches (((c :: cs).length + 2) * 8) reSkip (c :: cs) with
        | cons r rs =>
          rw [hm4] at h
          simp only [Option.some.injEq, Prod.mk.injEq] at h
          rcases h with ⟨h1, -⟩
          subst h1
          decide
        | nil =>
          exfalso
          by_cases hsp : isPySpace c = true
          · rw [hfuel] at hm4
            simp only [reSkip, rePlus, reSpace] at hm4
            exact reMatches_plus_cls_ne_nil _ _ _ _ hsp hm4
          · rw [hfuel] at hm3
            simp only [reType, rePlus, reNonSpace] at hm3
            exact reMatches_plus_cls_ne_nil _ _ _ _
              (by simp [Bool.not_eq_true] at hsp ⊢; exact hsp) hm3

theorem scanTokens_no_mismatch (fuel : Nat) :
    ∀ cs : List Char, (scanTokens fuel cs).all (fun t => t.kind != "MISMATCH") = true := by
  induction fuel with
  | zero => intro cs; rfl
  | succ f ih =>
    intro cs
    cases cs with
    | nil => rfl
    | cons c cs' =>
      unfold scanTokens
      cases hm : firstMatchAt tokenSpecs (c :: cs') with
      | none =>
        simp only
        exact ih cs'
      | some pr =>
        obtain ⟨name, n⟩ := pr
        simp only
        by_cases hskip : name = "SKIP"
        · rw [if_pos hskip]
          exact ih _
        · rw [if_neg hskip]
          rw [List.all_cons]
          refine Bool.and_eq_true_iff.mpr ⟨?_, ih _⟩
          have hne := firstMatchAt_not_mismatch c cs' name n hm
          exact bne_iff_ne.mpr hne

/-- No token produced by `_tokenize` is a `MISMATCH` token. -/
theorem tokenize_no_mismatch (s : String) :
    (tokenize s).all (fun t => t.kind != "MISMATCH") = true :=
  scanTokens_no_mismatch _ _

theorem unrec_of_error {α : Type} {F : Except PipeErr α} {e : PipeErr}
    (hF : isUnrecTokenErr F = false) (h : F = .error e) : isUnrecErr e = false := by
  rw [h] at hF
  exact hF

theorem parseCapsProps_not_unrec (seg : String) (parts : List String)
    (props : List (String × String)) :
    isUnrecTokenErr (parseCapsProps seg parts props) = false := by
  induction parts generalizing props with
  | nil => rfl
  | cons p rest ih =>
    unfold parseCapsProps
    dsimp only
    split
    · rfl
    · split
      · rfl
      · split
        · rfl
        · exact ih _

theorem parseCapsSegment_not_unrec (seg : String) :
    isUnrecTokenErr (parseCapsSegment seg) = false := by
  unfold parseCapsSegment
  dsimp only
  split
  · rfl
  · split
    · rfl
    · split
      · rfl
      · split
        · rfl
        · cases hres : parseCapsProps seg _ [] with
          | ok props => simp [Except.map, isUnrecTokenErr]
          | error e =>
            simp only [Except.map, isUnrecTokenErr]
            exact unrec_of_error (parseCapsProps_not_unrec seg _ []) hres

theorem edgeSourceFor_not_unrec (st : BuildSt) :
    isUnrecTokenErr (edgeSourceFor st) = false := by
  unfold edgeSourceFor
  split
  · split <;> rfl
  · rfl

theorem addNode_not_unrec (st : BuildSt) (v : String) :
    isUnrecTokenErr (addNode st v) = false := by
  unfold addNode
  dsimp only
  split
  · rename_i e hstep
    split at hstep
    · split at hstep
      · rename_i heq
        injection hstep with hstep
        subst hstep
        simp only [isUnrecTokenErr]
        exact unrec_of_error (edgeSourceFor_not_unrec _) heq
      · exact absurd hstep (by simp)
    · exact absurd hstep (by simp)
  · split <;> rfl

theorem addCapsNode_not_unrec (st : BuildSt) (base : String)
    (props : List (String × String)) :
    isUnrecTokenErr (addCapsNode st base props) = false := by
  unfold addCapsNode
  dsimp only
  split
  · split
    · rename_i heq
      simp only [isUnrecTokenErr]
      exact unrec_of_error (edgeSourceFor_not_unrec _) heq
    · rfl
  · rfl

theorem addPropertyToLastNode_not_unrec (st : BuildSt) (v : String) :
    isUnrecTokenErr (addPropertyToLastNode st v) = false := by
  unfold addPropertyToLastNode
  split
  · rfl
  · split <;> rfl

theorem processTokens_not_unrec (el : String) (toks : List Token)
    (htoks : toks.all (fun t => t.kind != "MISMATCH") = true) :
    ∀ st : BuildSt, isUnrecTokenErr (processTokens el st toks) = false := by
  induction toks with
  | nil => intro st; rfl
  | cons tok rest ih =>
    intro st
    rw [List.all_cons, Bool.and_eq_true_iff] at htoks
    obtain ⟨hhd, htl⟩ := htoks
    unfold processTokens
    dsimp only
    split
    · rename_i e hstep
      simp only [isUnrecTokenErr]
      split at hstep
      · exact unrec_of_error (addNode_not_unrec _ _) hstep
      · split at hstep
        · exact unrec_of_error (addPropertyToLastNode_not_unrec _ _) hstep
        · split at hstep
          · exact absurd hstep (by simp)
          · split at hstep
            · rename_i hk
              exact absurd hk (bne_iff_ne.mp hhd)
            · exact absurd hstep (by simp)
    · exact ih htl _

theorem processSegment_not_unrec (st : BuildSt) (el : String) :
    isUnrecTokenErr (processSegment st el) = false := by
  unfold processSegment
  split
  · rename_i e heq
    simp only [isUnrecTokenErr]
    exact unrec_of_error (parseCapsSegment_not_unrec el) heq
  · split
    · rename_i e heq
      simp only [isUnrecTokenErr]
      exact unrec_of_error (addCapsNode_not_unrec st _ _) heq
    · rfl
  · split
    · rename_i e heq
      simp only [isUnrecTokenErr]
      exact unrec_of_error
        (processTokens_not_unrec el (tokenize el) (tokenize_no_mismatch el) st) heq
    · rfl

theorem buildSegments_not_unrec (segs : List String) :
    ∀ st : BuildSt, isUnrecTokenErr (buildSegments st segs) = false := by
  induction segs with
  | nil => intro st; rfl
  | cons raw rest ih =>
    intro st
    unfold buildSegments
    dsimp only
    split
    · exact ih st
    · split
      · rename_i e heq
        simp only [isUnrecTokenErr]
        exact unrec_of_error (processSegment_not_unrec st (pyStrip raw)) heq
      · exact ih _

/-- C10: for any input, the tokenizer never yields a `MISMATCH` token —
the `PROPERTY`, `TEE_END`, `TYPE` and whitespace alternatives cover every
character — and consequently the unrecognized-token error branch of
`from_pipeline_description` is unreachable for every description string. -/
theorem tokenizer_covers_every_character :
    (∀ s : String, (tokenize s).all (fun t => t.kind != "MISMATCH") = true) ∧
    (∀ (L : Lookups) (s : String),
      isUnrecTokenErr (fromPipelineDescription L s) = false) := by
  refine ⟨tokenize_no_mismatch, ?_⟩
  intro L s
  unfold fromPipelineDescription
  split
  · rename_i e heq
    simp only [isUnrecTokenErr]
    exact unrec_of_error (buildSegments_not_unrec (pySplit s '!') initialBuildSt) heq
  · rfl

theorem filter_isEmpty {α : Type} (p : α → Bool) (l : List α) :
    (l.filter p).isEmpty = !(l.any p) := by
  induction l with
  | nil => rfl
  | cons x xs ih => cases hx : p x <;> simp [List.filter_cons, hx, ih]

theorem find?_isSome_eq_any {α : Type} (p : α → Bool) (l : List α) :
    (l.find? p).isSome = l.any p := by
  induction l with
  | nil => rfl
  | cons x xs ih => cases hx : p x <;> simp [List.find?_cons, hx, ih]

theorem isPrefixOf_append_of_length_le {α : Type} [BEq α] (p : List α) :
    ∀ c x : List α, p.length ≤ c.length → (p.isPrefixOf (c ++ x)) = p.isPrefixOf c := by
  induction p with
  | nil => intro c x _; simp [List.isPrefixOf]
  | cons a as ih =>
    intro c x h
    cases c with
    | nil => simp at h
    | cons b bs =>
      simp only [List.cons_append, List.isPrefixOf]
      rw [show bs.append x = bs ++ x from rfl, ih bs x (by simpa using h)]

theorem pyStartsWith_append (p c1 tail : String) (h : p.data.length ≤ c1.data.length) :
    pyStartsWith (c1 ++ tail) p = pyStartsWith c1 p := by
  simp [pyStartsWith, String.data_append, isPrefixOf_append_of_length_le _ _ _ h]

theorem resultViolation_msgNodeAdded (tail : String) :
    resultViolation (.error
      ("Node additions are not supported in simple view. Added nodes: " ++ tail)) =
    some .nodeAdded := by
  unfold resultViolation
  dsimp only
  rw [pyStartsWith_append _ _ _ (by decide), pyStartsWith_append _ _ _ (by decide),
    pyStartsWith_append _ _ _ (by decide), pyStartsWith_append _ _ _ (by decide),
    pyStartsWith_append _ _ _ (by decide), pyStartsWith_append _ _ _ (by decide)]
  decide

theorem resultViolation_msgNodeRemoved (tail : String) :
    resultViolation (.error
      ("Node removals are not supported in simple view. Removed nodes: " ++ tail)) =
    some .nodeRemoved := by
  unfold resultViolation
  dsimp only
  rw [pyStartsWith_append _ _ _ (by decide), pyStartsWith_append _ _ _ (by decide),
    pyStartsWith_append _ _ _ (by decide), pyStartsWith_append _ _ _ (by decide),
    pyStartsWith_append _ _ _ (by decide), pyStartsWith_append _ _ _ (by decide)]
  decide

theorem resultViolation_msgEdgeAdded (tail : String) :
    resultViolation (.error
      ("Edge additions are not supported in simple view. Added edges: " ++ tail)) =
    some .edgeAdded := by
  unfold resultViolation
  dsimp only
  rw [pyStartsWith_append _ _ _ (by decide), pyStartsWith_append _ _ _ (by decide),
    pyStartsWith_append _ _ _ (by decide), pyStartsWith_append _ _ _ (by decide),
    pyStartsWith_append _ _ _ (by decide), pyStartsWith_append _ _ _ (by decide)]
  decide

theorem resultViolation_msgEdgeRemoved (tail : String) :
    resultViolation (.error
      ("Edge removals are not supported in simple view. Removed edges: " ++ tail)) =
    some .edgeRemoved := by
  unfold resultViolation
  dsimp only
  rw [pyStartsWith_append _ _ _ (by decide), pyStartsWith_append _ _ _ (by decide),
    pyStartsWith_append _ _ _ (by decide), pyStartsWith_append _ _ _ (by decide),
    pyStartsWith_append _ _ _ (by decide), pyStartsWith_append _ _ _ (by decide)]
  decide

theorem resultViolation_msgEdgeChanged (tail : String) :
    resultViolation (.error
      ("Edge modifications are not supported in simple view. Modified edges: " ++ tail)) =
    some .edgeChanged := by
  unfold resultViolation
  dsimp only
  rw [pyStartsWith_append _ _ _ (by decide), pyStartsWith_append _ _ _ (by decide),
    pyStartsWith_append _ _ _ (by decide), pyStartsWith_append _ _ _ (by decide),
    pyStartsWith_append _ _ _ (by decide), pyStartsWith_append _ _ _ (by decide)]
  decide

theorem resultViolation_msgTypeChanged (tail : String) :
    resultViolation (.error
      ("Node type changes are not supported in simple view. Node " ++ tail)) =
    some .typeChanged := by
  unfold resultViolation
  dsimp only
  rw [pyStartsWith_append _ _ _ (by decide), pyStartsWith_append _ _ _ (by decide),
    pyStartsWith_append _ _ _ (by decide), pyStartsWith_append _ _ _ (by decide),
    pyStartsWith_append _ _ _ (by decide), pyStartsWith_append _ _ _ (by decide)]
  decide

theorem resultViolation_msgInternal (tail : String) :
    resultViolation (.error ("Internal error: Node " ++ tail)) = none := by
  unfold resultViolation
  dsimp only
  rw [pyStartsWith_append _ _ _ (by decide), pyStartsWith_append _ _ _ (by decide),
    pyStartsWith_append _ _ _ (by decide), pyStartsWith_append _ _ _ (by decide),
    pyStartsWith_append _ _ _ (by decide), pyStartsWith_append _ _ _ (by decide)]
  decide

/-- C4: every structural edit of the simple view is rejected, and the
checks are applied in this priority order — node additions, node removals,
added edge ids, removed edge ids, retained edges with changed endpoints,
retained nodes with changed type: the class of the raised error always
equals the first violated check (success only when no check is violated).
In particular, an edited simple graph with one added node raises an error
whose message starts with "Node additions". -/
theorem apply_simple_view_changes_priority_order :
    (∀ ms os oa : Graph,
      resultViolation (applySimpleViewChanges ms os oa) = specFirstViolation ms os) ∧
    applySimpleViewChanges
        { nodes := [⟨"0", "filesrc", []⟩, ⟨"7", "queue", []⟩], edges := [] }
        { nodes := [⟨"0", "filesrc", []⟩], edges := [] }
        { nodes := [⟨"0", "filesrc", []⟩], edges := [] } =
      .error "Node additions are not supported in simple view. Added nodes: 7. Please use advanced view to add new nodes." ∧
    pyStartsWith "Node additions are not supported in simple view. Added nodes: 7. Please use advanced view to add new nodes." "Node additions" = true := by
  refine ⟨?_, by rfl, by decide⟩
  intro ms os oa
  unfold applySimpleViewChanges specFirstViolation
  simp only [filter_isEmpty, Bool.not_not]
  split
  · rw [String.append_assoc]
    exact resultViolation_msgNodeAdded _
  · split
    · rw [String.append_assoc]
      exact resultViolation_msgNodeRemoved _
    · split
      · rw [String.append_assoc]
        exact resultViolation_msgEdgeAdded _
      · split
        · rw [String.append_assoc]
          exact resultViolation_msgEdgeRemoved _
        · split
          · rw [String.append_assoc]
            exact resultViolation_msgEdgeChanged _
          · cases hf : (dedupFirst (List.map Node.id ms.nodes)).find? (fun nid =>
                match alistGet (List.foldl (fun m n => alistInsert m n.id n) [] os.nodes) nid,
                  alistGet (List.foldl (fun m n => alistInsert m n.id n) [] ms.nodes) nid with
                | some onode, some mnode => onode.type != mnode.type
                | _, _ => false) with
            | some nid =>
              dsimp only
              have hany := find?_isSome_eq_any (fun nid =>
                match alistGet (List.foldl (fun m n => alistInsert m n.id n) [] os.nodes) nid,
                  alistGet (List.foldl (fun m n => alistInsert m n.id n) [] ms.nodes) nid with
                | some onode, some mnode => onode.type != mnode.type
                | _, _ => false) (dedupFirst (List.map Node.id ms.nodes))
              rw [hf] at hany
              simp only [Option.isSome_some] at hany
              rw [if_pos hany.symm]
              simp only [String.append_assoc]
              exact resultViolation_msgTypeChanged _
            | none =>
              dsimp only
              have hany := find?_isSome_eq_any (fun nid =>
                match alistGet (List.foldl (fun m n => alistInsert m n.id n) [] os.nodes) nid,
                  alistGet (List.foldl (fun m n => alistInsert m n.id n) [] ms.nodes) nid with
                | some onode, some mnode => onode.type != mnode.type
                | _, _ => false) (dedupFirst (List.map Node.id ms.nodes))
              rw [hf] at hany
              simp only [Option.isSome_none] at hany
              rw [if_neg (by rw [← hany]; simp)]
              split
              · simp only [String.append_assoc]
                exact resultViolation_msgInternal _
              · rfl

/-! ## C8: the simple-view transform on an already-simple graph -/

theorem contains_iff_mem (l : List String) (a : String) :
    l.contains a = true ↔ a ∈ l := by
  simp

theorem mem_dedupFirstAux (b : String) :
    ∀ (l seen : List String), b ∈ dedupFirstAux l seen ↔ (b ∈ l ∧ ¬b ∈ seen) := by
  intro l
  induction l with
  | nil => intro seen; simp [dedupFirstAux]
  | cons x xs ih =>
    intro seen
    unfold dedupFirstAux
    by_cases hx : seen.contains x = true
    · rw [if_pos hx, ih]
      rw [contains_iff_mem] at hx
      constructor
      · rintro ⟨hb, hs⟩
        exact ⟨List.mem_cons_of_mem _ hb, hs⟩
      · rintro ⟨hb, hs⟩
        rcases List.mem_cons.mp hb with hb | hb
        · exact absurd (hb ▸ hx) hs
        · exact ⟨hb, hs⟩
    · rw [if_neg hx]
      have hxm : ¬x ∈ seen := fun hm => hx ((contains_iff_mem seen x).mpr hm)
      simp only [List.mem_cons, ih]
      constructor
      · rintro (rfl | ⟨hb, hs⟩)
        · exact ⟨Or.inl rfl, hxm⟩
        · exact ⟨Or.inr hb, fun hm => hs (Or.inr hm)⟩
      · rintro ⟨rfl | hb, hs⟩
        · exact Or.inl rfl
        · by_cases hbx : b = x
          · exact Or.inl hbx
          · refine Or.inr ⟨hb, ?_⟩
            intro hm
            rcases hm with h | h
            · exact hbx h
            · exact hs h

theorem mem_dedupFirst (b : String) (l : List String) :
    b ∈ dedupFirst l ↔ b ∈ l := by
  unfold dedupFirst
  rw [mem_dedupFirstAux]
  simp

theorem insertSorted_perm {α : Type} (lt : α → α → Bool) (x : α) (l : List α) :
    (insertSorted lt x l).Perm (x :: l) := by
  induction l with
  | nil => exact List.Perm.refl _
  | cons y ys ih =>
    unfold insertSorted
    split
    · exact List.Perm.refl _
    · exact ((ih.cons y).trans (List.Perm.swap x y ys)).symm.symm

theorem pySortedBy_perm_aux {α : Type} (lt : α → α → Bool) :
    ∀ (l acc : List α), (l.foldl (fun a x => insertSorted lt x a) acc).Perm (acc ++ l) := by
  intro l
  induction l with
  | nil => intro acc; simp [List.Perm.refl]
  | cons x xs ih =>
    intro acc
    simp only [List.foldl_cons]
    refine (ih (insertSorted lt x acc)).trans ?_
    refine (List.Perm.append_right xs (insertSorted_perm lt x acc)).trans ?_
    exact List.perm_middle.symm

theorem pySortedBy_perm {α : Type} (lt : α → α → Bool) (l : List α) :
    (pySortedBy lt l).Perm l := by
  unfold pySortedBy
  simpa using pySortedBy_perm_aux lt l []

theorem mem_pySortedBy {α : Type} (lt : α → α → Bool) (l : List α) (a : α) :
    a ∈ pySortedBy lt l ↔ a ∈ l :=
  (pySortedBy_perm lt l).mem_iff

theorem alistGet_alistInsert {α : Type} (m : List (String × α)) (k : String) (v : α)
    (a : String) :
    alistGet (alistInsert m k v) a = if a = k then some v else alistGet m a := by
  induction m with
  | nil =>
    by_cases h : a = k
    · subst h; simp [alistInsert, alistGet]
    · simp only [alistInsert, alistGet, if_neg h]
      rw [if_neg (fun hc : k = a => h hc.symm)]
  | cons kv rest ih =>
    obtain ⟨k1, v1⟩ := kv
    by_cases h1 : k1 = k
    · subst h1
      by_cases h : a = k1
      · subst h; simp [alistInsert, alistGet]
      · simp only [alistInsert, if_pos rfl, alistGet, if_neg h]
        rw [if_neg (fun hc : k1 = a => h hc.symm), if_neg (fun hc : k1 = a => h hc.symm)]
    · by_cases h : k1 = a
      · subst h
        have hak : ¬k1 = k := h1
        simp [alistInsert, alistGet, h1]
      · simp only [alistInsert, if_neg h1, alistGet, if_neg h, ih]

theorem alistGet_append {α : Type} (m1 m2 : List (String × α)) (a : String) :
    alistGet (m1 ++ m2) a =
      match alistGet m1 a with
      | some v => some v
      | none => alistGet m2 a := by
  induction m1 with
  | nil => simp [alistGet]
  | cons kv rest ih =>
    obtain ⟨k1, v1⟩ := kv
    by_cases h : k1 = a
    · simp [alistGet, h]
    · simp [alistGet, h, ih]

theorem alistGet_alistAppend (m : List (String × List String)) (k v a : String) :
    alistGet (alistAppend m k v) a =
      if a = k then some (((alistGet m k).getD []) ++ [v]) else alistGet m a := by
  unfold alistAppend
  cases hm : alistGet m k with
  | some l =>
    rw [alistGet_alistInsert]
    by_cases h : a = k
    · simp [h, hm]
    · simp [h]
  | none =>
    rw [alistGet_append]
    cases hma : alistGet m a with
    | some v2 =>
      simp only [hma]
      by_cases h : a = k
      · subst h
        simp [hm] at hma
      · rw [if_neg h]
    | none =>
      simp only [hma, alistGet]
      by_cases h : a = k
      · subst h
        simp [hm]
      · rw [if_neg (fun hc : k = a => h hc.symm), if_neg h]

/-- Membership in the adjacency map built by `edges_from`. -/
theorem mem_edgesFrom_aux (edges : List Edge) :
    ∀ (m0 : List (String × List String)) (a b : String),
      b ∈ (alistGet (edges.foldl (fun m e => alistAppend m e.source e.target) m0) a).getD [] ↔
        (b ∈ (alistGet m0 a).getD [] ∨ ∃ e ∈ edges, e.source = a ∧ e.target = b) := by
  induction edges with
  | nil => intro m0 a b; simp
  | cons e rest ih =>
    intro m0 a b
    simp only [List.foldl_cons]
    rw [ih]
    have hstep : b ∈ (alistGet (alistAppend m0 e.source e.target) a).getD [] ↔
        (b ∈ (alistGet m0 a).getD [] ∨ (e.source = a ∧ e.target = b)) := by
      rw [alistGet_alistAppend]
      by_cases h : a = e.source
      · subst h
        rw [if_pos rfl]
        simp only [Option.getD_some, List.mem_append, List.mem_singleton]
        constructor
        · rintro (hb | rfl)
          · exact Or.inl hb
          · exact Or.inr (by simp)
        · rintro (hb | ⟨-, rfl⟩)
          · exact Or.inl hb
          · exact Or.inr rfl
      · rw [if_neg h]
        constructor
        · exact Or.inl
        · rintro (hb | ⟨hsrc, -⟩)
          · exact hb
          · exact absurd hsrc.symm h
    rw [hstep]
    constructor
    · rintro ((hb | he) | ⟨e2, he2, hprop⟩)
      · exact Or.inl hb
      · exact Or.inr ⟨e, List.mem_cons_self e rest, he⟩
      · exact Or.inr ⟨e2, List.mem_cons_of_mem e he2, hprop⟩
    · rintro (hb | ⟨e2, he2, hprop⟩)
      · exact Or.inl (Or.inl hb)
      · rcases List.mem_cons.mp he2 with rfl | he2
        · exact Or.inl (Or.inr hprop)
        · exact Or.inr ⟨e2, he2, hprop⟩

theorem mem_edgesFrom (edges : List Edge) (a b : String) :
    b ∈ (alistGet (edgesFrom edges) a).getD [] ↔
      ∃ e ∈ edges, e.source = a ∧ e.target = b := by
  unfold edgesFrom
  rw [mem_edgesFrom_aux]
  simp [alistGet]

/-- In a graph where every enqueued id is visible, the BFS collects the
first occurrences of the queue entries not yet visited. -/
theorem bfs_all_visible (efm : List (String × List String)) (visibleIds : List String) :
    ∀ (fuel : Nat) (queue visited targets : List String),
      (∀ q ∈ queue, visibleIds.contains q = true) →
      queue.length ≤ fuel →
      bfsVisibleTargets efm visibleIds fuel queue visited targets =
        targets ++ dedupFirstAux queue visited := by
  intro fuel
  induction fuel with
  | zero =>
    intro queue visited targets _ hlen
    rw [Nat.le_zero, List.length_eq_zero] at hlen
    subst hlen
    simp [bfsVisibleTargets, dedupFirstAux]
  | succ f ih =>
    intro queue visited targets hvis hlen
    cases queue with
    | nil => simp [bfsVisibleTargets, dedupFirstAux]
    | cons c q =>
      unfold bfsVisibleTargets dedupFirstAux
      by_cases hc : visited.contains c = true
      · rw [if_pos hc, if_pos hc]
        exact ih q visited targets (fun x hx => hvis x (List.mem_cons_of_mem _ hx))
          (by simpa using Nat.le_of_succ_le_succ (by simpa using hlen))
      · rw [if_neg hc, if_neg hc]
        rw [if_pos (hvis c (List.mem_cons_self c q))]
        rw [ih q (c :: visited) (targets ++ [c])
          (fun x hx => hvis x (List.mem_cons_of_mem _ hx))
          (by simpa using Nat.le_of_succ_le_succ (by simpa using hlen))]
        simp

theorem genSimpleEdges_inner_mem (vid : String) (targets : List String) :
    ∀ (acc : List Edge × Nat) (a b : String),
      (∃ e ∈ (targets.foldl
          (fun (acc2 : List Edge × Nat) tid =>
            (acc2.1 ++ [{ id := toString acc2.2, source := vid, target := tid }], acc2.2 + 1))
          acc).1, e.source = a ∧ e.target = b) ↔
      ((∃ e ∈ acc.1, e.source = a ∧ e.target = b) ∨ (a = vid ∧ b ∈ targets)) := by
  induction targets with
  | nil => intro acc a b; simp
  | cons t ts ih =>
    intro acc a b
    simp only [List.foldl_cons]
    rw [ih]
    constructor
    · rintro (⟨e, he, hprop⟩ | ⟨rfl, hb⟩)
      · rcases List.mem_append.mp he with he | he
        · exact Or.inl ⟨e, he, hprop⟩
        · simp only [List.mem_singleton] at he
          subst he
          obtain ⟨rfl, rfl⟩ := hprop
          exact Or.inr ⟨rfl, List.mem_cons_self _ _⟩
      · exact Or.inr ⟨rfl, List.mem_cons_of_mem _ hb⟩
    · rintro (⟨e, he, hprop⟩ | ⟨rfl, hb⟩)
      · exact Or.inl ⟨e, List.mem_append_left _ he, hprop⟩
      · rcases List.mem_cons.mp hb with rfl | hb
        · exact Or.inl ⟨_, List.mem_append_right _ (List.mem_singleton_self _), rfl, rfl⟩
        · exact Or.inr ⟨rfl, hb⟩

theorem genSimpleEdges_mem (tgts : String → List String) (srcs : List String) :
    ∀ (acc : List Edge × Nat) (a b : String),
      (∃ e ∈ (srcs.foldl
          (fun (acc : List Edge × Nat) vid =>
            (tgts vid).foldl
              (fun (acc2 : List Edge × Nat) tid =>
                (acc2.1 ++ [{ id := toString acc2.2, source := vid, target := tid }], acc2.2 + 1))
              acc)
          acc).1, e.source = a ∧ e.target = b) ↔
      ((∃ e ∈ acc.1, e.source = a ∧ e.target = b) ∨ ∃ vid ∈ srcs, a = vid ∧ b ∈ tgts vid) := by
  induction srcs with
  | nil => intro acc a b; simp
  | cons v vs ih =>
    intro acc a b
    simp only [List.foldl_cons]
    rw [ih, genSimpleEdges_inner_mem]
    constructor
    · rintro ((⟨e, he, hprop⟩ | ⟨rfl, hb⟩) | ⟨vid, hvid, hprop⟩)
      · exact Or.inl ⟨e, he, hprop⟩
      · exact Or.inr ⟨a, List.mem_cons_self _ _, rfl, hb⟩
      · exact Or.inr ⟨vid, List.mem_cons_of_mem _ hvid, hprop⟩
    · rintro (⟨e, he, hprop⟩ | ⟨vid, hvid, hprop⟩)
      · exact Or.inl (Or.inl ⟨e, he, hprop⟩)
      · rcases List.mem_cons.mp hvid with rfl | hvid
        · exact Or.inl (Or.inr hprop)
        · exact Or.inr ⟨vid, hvid, hprop⟩

theorem genSimpleEdges_inner_ids (vid : String) (targets : List String) :
    ∀ (acc : List Edge × Nat),
      acc.1.map Edge.id = (List.range acc.2).map (fun i => toString i) →
      ((targets.foldl
          (fun (acc2 : List Edge × Nat) tid =>
            (acc2.1 ++ [{ id := toString acc2.2, source := vid, target := tid }], acc2.2 + 1))
          acc).1.map Edge.id =
        (List.range (targets.foldl
          (fun (acc2 : List Edge × Nat) tid =>
            (acc2.1 ++ [{ id := toString acc2.2, source := vid, target := tid }], acc2.2 + 1))
          acc).2).map (fun i => toString i)) := by
  induction targets with
  | nil => intro acc h; exact h
  | cons t ts ih =>
    intro acc h
    simp only [List.foldl_cons]
    apply ih
    simp only [List.map_append, h, List.range_succ, List.map_cons, List.map_nil]

theorem genSimpleEdges_ids (tgts : String → List String) (srcs : List String) :
    (genSimpleEdges tgts srcs).1.map Edge.id =
      (List.range (genSimpleEdges tgts srcs).2).map (fun i => toString i) := by
  unfold genSimpleEdges
  generalize hstart : (([], 0) : List Edge × Nat) = acc0
  have h0 : acc0.1.map Edge.id = (List.range acc0.2).map (fun i => toString i) := by
    rw [← hstart]; rfl
  clear hstart
  induction srcs generalizing acc0 with
  | nil => exact h0
  | cons v vs ih =>
    simp only [List.foldl_cons]
    exact ih _ (genSimpleEdges_inner_ids v (tgts v) acc0 h0)

/-- C8: on an already-simple graph — no node carries the capability
discriminator, every node type matches a visible pattern, node ids are
numeric (as the data model requires) and edges reference existing
nodes — `to_simple_view` returns a graph with the same nodes (ids
preserved, a permutation of the input, re-sorted by numeric id), exactly
the same connectivity relation, and edge ids renumbered sequentially
from 0. -/
theorem to_simple_view_idempotent (typeMatches : String → Bool) (g : Graph)
    (hcaps : ∀ n ∈ g.nodes, ¬dictGet n.data nodeKindKey = some nodeKindCaps)
    (hvis : ∀ n ∈ g.nodes, typeMatches n.type = true)
    (hids : ∀ n ∈ g.nodes, (pyToIntString n.id).isSome = true)
    (hwf : ∀ e ∈ g.edges,
      (∃ n ∈ g.nodes, n.id = e.source) ∧ (∃ n ∈ g.nodes, n.id = e.target)) :
    ∃ g2 : Graph, toSimpleView typeMatches g = .ok g2 ∧
      g2.nodes.Perm g.nodes ∧
      (∀ a b : String,
        (∃ e ∈ g2.edges, e.source = a ∧ e.target = b) ↔
        (∃ e ∈ g.edges, e.source = a ∧ e.target = b)) ∧
      g2.edges.map Edge.id = (List.range g2.edges.length).map (fun i => toString i) := by
  have hallvis : ∀ n ∈ g.nodes, isNodeVisible typeMatches n = true := by
    intro n hn
    unfold isNodeVisible
    rw [if_neg ?_]
    · exact hvis n hn
    · intro hbeq
      exact hcaps n hn (by simpa using hbeq)
  have hfil : g.nodes.filter (isNodeVisible typeMatches) = g.nodes :=
    List.filter_eq_self.mpr hallvis
  have hmemvI : ∀ i : String,
      i ∈ dedupFirst (g.nodes.map Node.id) ↔ ∃ n ∈ g.nodes, n.id = i := by
    intro i
    rw [mem_dedupFirst]
    simp [List.mem_map]
  have hfind : (dedupFirst (g.nodes.map Node.id)).find?
      (fun i => (pyToIntString i).isNone) = none := by
    rw [List.find?_eq_none]
    intro i hi
    obtain ⟨n, hn, rfl⟩ := (hmemvI i).mp hi
    have := hids n hn
    simp [Option.isNone]
    cases hp : pyToIntString n.id with
    | none => rw [hp] at this; cases this
    | some v => simp
  have hcont : ∀ n ∈ g.nodes, (dedupFirst (g.nodes.map Node.id)).contains n.id = true := by
    intro n hn
    rw [contains_iff_mem, hmemvI]
    exact ⟨n, hn, rfl⟩
  have hfil2 : g.nodes.filter
      (fun n => (dedupFirst (g.nodes.map Node.id)).contains n.id) = g.nodes :=
    List.filter_eq_self.mpr hcont
  unfold toSimpleView
  simp only [hfil, hfind, hfil2]
  refine ⟨_, rfl, pySortedBy_perm _ _, ?_, ?_⟩
  · intro a b
    dsimp only
    rw [show genSimpleEdges
        (fun vid => pySortedBy intIdLt
          (findVisibleTargets (edgesFrom g.edges) (dedupFirst (g.nodes.map Node.id)) vid
            g.edges.length))
        (pySortedBy intIdLt (dedupFirst (g.nodes.map Node.id))) =
      (pySortedBy intIdLt (dedupFirst (g.nodes.map Node.id))).foldl
        (fun (acc : List Edge × Nat) vid =>
          ((fun vid => pySortedBy intIdLt
            (findVisibleTargets (edgesFrom g.edges) (dedupFirst (g.nodes.map Node.id)) vid
              g.edges.length)) vid).foldl
            (fun (acc2 : List Edge × Nat) tid =>
              (acc2.1 ++ [{ id := toString acc2.2, source := vid, target := tid }], acc2.2 + 1))
            acc)
        ([], 0) from rfl]
    rw [genSimpleEdges_mem]
    have htgts : ∀ vid b2 : String,
        b2 ∈ pySortedBy intIdLt
          (findVisibleTargets (edgesFrom g.edges) (dedupFirst (g.nodes.map Node.id)) vid
            g.edges.length) ↔
        ∃ e ∈ g.edges, e.source = vid ∧ e.target = b2 := by
      intro vid b2
      rw [mem_pySortedBy]
      unfold findVisibleTargets
      rw [bfs_all_visible _ _ _ _ _ _ ?_ (by omega)]
      · rw [List.nil_append, mem_dedupFirstAux]
        simp only [List.not_mem_nil, not_false_eq_true, and_true]
        exact mem_edgesFrom g.edges vid b2
      · intro q hq
        have hq2 := (mem_edgesFrom g.edges vid q).mp hq
        obtain ⟨e, he, -, rfl⟩ := hq2
        rw [contains_iff_mem, hmemvI]
        exact (hwf e he).2
    constructor
    · rintro (⟨e, he, -⟩ | ⟨vid, -, rfl, hb⟩)
      · exact absurd he (List.not_mem_nil e)
      · exact (htgts a b).mp hb
    · intro hex
      refine Or.inr ⟨a, ?_, rfl, (htgts a b).mpr hex⟩
      rw [mem_pySortedBy, hmemvI]
      obtain ⟨e, he, hsrc, -⟩ := hex
      obtain ⟨n, hn, hnid⟩ := (hwf e he).1
      exact ⟨n, hn, hnid.trans hsrc⟩
  · dsimp only
    have hids2 := genSimpleEdges_ids
      (fun vid => pySortedBy intIdLt
        (findVisibleTargets (edgesFrom g.edges) (dedupFirst (g.nodes.map Node.id)) vid
          g.edges.length))
      (pySortedBy intIdLt (dedupFirst (g.nodes.map Node.id)))
    rw [hids2]
    congr 1
    have hlen := congrArg List.length hids2
    simp only [List.length_map, List.length_range] at hlen
    rw [hlen]

theorem to_simple_view_idempotent_witness :
    ∃ g2 : Graph, toSimpleView (fun _ => true) twoNodeGraph = .ok g2 ∧
      g2.nodes.Perm twoNodeGraph.nodes ∧
      (∀ a b : String,
        (∃ e ∈ g2.edges, e.source = a ∧ e.target = b) ↔
        (∃ e ∈ twoNodeGraph.edges, e.source = a ∧ e.target = b)) ∧
      g2.edges.map Edge.id = (List.range g2.edges.length).map (fun i => toString i) :=
  to_simple_view_idempotent (fun _ => true) twoNodeGraph
    (by decide) (by decide) (by decide) (by decide)

theorem processLoop_error_mono :
    ∀ (msgs : List BusMsg) (st : RunState),
      st.errorSeen = true → (processLoop msgs st).1.errorSeen = true := by
  intro msgs
  induction msgs with
  | nil => intro st h; exact h
  | cons m rest ih =>
    intro st h
    unfold processLoop
    dsimp only
    split
    · cases m <;> simp_all [onBusMessage]
    · apply ih
      cases m <;> simp_all [onBusMessage]

theorem processLoop_error_covered :
    ∀ (msgs : List BusMsg) (st : RunState),
      BusMsg.error ∈ msgs →
      (processLoop msgs st).1.errorSeen = true ∨ BusMsg.error ∈ (processLoop msgs st).2.1 := by
  intro msgs
  induction msgs with
  | nil => intro st h; cases h
  | cons m rest ih =>
    intro st hmem
    unfold processLoop
    dsimp only
    by_cases hq : quitsLoop m = true
    · rw [if_pos hq]
      cases m with
      | error => left; simp [onBusMessage]
      | eos =>
        rcases List.mem_cons.mp hmem with h | h
        · cases h
        · right; exact h
      | warning => cases hq
      | stateChanged => cases hq
      | other => cases hq
    · rw [if_neg hq]
      rcases List.mem_cons.mp hmem with h | h
      · subst h; cases hq rfl
      · exact ih _ h

/-- C3: whenever a run of the execution state machine terminates with an
outcome, the presence of at least one ERROR bus message — delivered
during the wait loop or seen only by the post-loop drain — forces the
outcome to failure with reason `error`, regardless of EOS or the
max-runtime timer. -/
theorem error_bus_message_always_fails (loopMsgs lateMsgs : List BusMsg)
    (timerFires : Bool) (out : Bool × Option String)
    (hrun : pipelineRun loopMsgs timerFires lateMsgs = some out)
    (herr : BusMsg.error ∈ loopMsgs ∨ BusMsg.error ∈ lateMsgs) :
    pipelineRun loopMsgs timerFires lateMsgs = some (false, some "error") := by
  unfold pipelineRun at hrun ⊢
  rcases hp : processLoop loopMsgs initialRunState with ⟨st, remaining, quit⟩
  rw [hp] at hrun
  dsimp only at hrun ⊢
  have herrState : st.errorSeen = true ∨ BusMsg.error ∈ (remaining ++ lateMsgs) := by
    rcases herr with herr | herr
    · have := processLoop_error_covered loopMsgs initialRunState herr
      rw [hp] at this
      rcases this with h | h
      · exact Or.inl h
      · exact Or.inr (List.mem_append_left _ h)
    · exact Or.inr (List.mem_append_right _ herr)
  by_cases hq : quit = true
  · rw [if_pos hq] at hrun ⊢
    dsimp only at hrun ⊢
    rcases herrState with he | he
    · have hd : (if drainBusMessages (remaining ++ lateMsgs) then
          if !st.errorSeen then
            { st with errorSeen := true, reason := some (st.reason.getD "error") }
          else st
        else st).errorSeen = true := by
        split
        · split
          · rfl
          · exact he
        · exact he
      rw [if_pos hd]
    · have hdrain : drainBusMessages (remaining ++ lateMsgs) = true := by
        unfold drainBusMessages
        rw [List.any_eq_true]
        exact ⟨.error, he, rfl⟩
      rw [if_pos hdrain]
      by_cases hse : st.errorSeen = true
      · simp only [hse, Bool.not_true, Bool.false_eq_true, if_false, if_pos hse]
        exact if_pos trivial
      · simp only [Bool.not_eq_true] at hse
        simp only [hse, Bool.not_false, if_true]
  · rw [if_neg hq] at hrun ⊢
    by_cases ht : timerFires = true
    · rw [if_pos ht] at hrun ⊢
      dsimp only at hrun ⊢
      have hfireErr : (maxRuntimeFire st).errorSeen = st.errorSeen := by
        unfold maxRuntimeFire
        split <;> rfl
      rcases herrState with he | he
      · have hd : (if drainBusMessages (remaining ++ lateMsgs) then
            if !(maxRuntimeFire st).errorSeen then
              { (maxRuntimeFire st) with errorSeen := true, reason := some ((maxRuntimeFire st).reason.getD "error") }
            else maxRuntimeFire st
          else maxRuntimeFire st).errorSeen = true := by
          split
          · split
            · rfl
            · rw [hfireErr]; exact he
          · rw [hfireErr]; exact he
        rw [if_pos hd]
      · have hdrain : drainBusMessages (remaining ++ lateMsgs) = true := by
          unfold drainBusMessages
          rw [List.any_eq_true]
          exact ⟨.error, he, rfl⟩
        rw [if_pos hdrain]
        by_cases hse : (maxRuntimeFire st).errorSeen = true
        · simp only [hse, Bool.not_true, Bool.false_eq_true, if_false, if_pos hse]
          exact if_pos trivial
        · simp only [Bool.not_eq_true] at hse
          simp only [hse, Bool.not_false, if_true]
    · rw [if_neg ht] at hrun
      dsimp only at hrun
      cases hrun

/-- Witness: a run whose loop ends at EOS but whose drain then surfaces a
late ERROR still fails with reason `error`. -/
theorem error_bus_message_always_fails_witness :
    pipelineRun [BusMsg.eos] false [BusMsg.error] = some (false, some "error") :=
  error_bus_message_always_fails [BusMsg.eos] [BusMsg.error] false
    (false, some "error") (by rfl) (Or.inr (by decide))

theorem filterMap_isEmpty_eq_not_any {α β : Type} (f : α → Option β) (p : α → Bool)
    (h : ∀ x, (f x).isSome = p x) (ls : List α) :
    (ls.filterMap f).isEmpty = !ls.any p := by
  induction ls with
  | nil => rfl
  | cons x xs ih =>
    simp only [List.filterMap_cons, List.any_cons]
    cases hf : f x with
    | none =>
      have hp : p x = false := by rw [← h x, hf]; rfl
      rw [hp, ih]
      simp
    | some b =>
      have hp : p x = true := by rw [← h x, hf]; rfl
      rw [hp]
      simp

/-- C6: the run is reported valid iff the exit code is 0 and no captured
diagnostic line both starts with the marker `gst_runner - ERROR - ` and
has a remainder that survives stripping; a marker-prefixed line whose
remainder strips to nothing is discarded and does NOT invalidate the
run, so validity is not equivalent to the absence of marker-prefixed
lines as originally claimed. -/
theorem validation_valid_iff_no_surviving_error_line (rc : Int) (stderr : String) :
    (validationOutcome rc stderr).1 =
      (rc == 0 && !((pySplitlines stderr).any survivingErrLine)) := by
  unfold validationOutcome
  dsimp only
  unfold parseValidationStderr
  by_cases he : stderr.data.isEmpty
  · rw [if_pos he]
    have hd : stderr.data = [] := by
      cases hds : stderr.data with
      | nil => rfl
      | cons c cs => rw [hds] at he; cases he
    have hsp : pySplitlines stderr = [] := by
      unfold pySplitlines
      rw [hd]
      rfl
    rw [hsp]
    rfl
  · rw [if_neg he]
    rw [filterMap_isEmpty_eq_not_any _ survivingErrLine]
    intro l
    unfold survivingErrLine
    by_cases h1 : pyStartsWith l gstErrorMarker = true
    · rw [if_pos h1, h1]
      by_cases h2 : (pyStrip ⟨l.data.drop gstErrorMarker.data.length⟩).data.isEmpty = true
      · rw [if_pos h2, h2]
        rfl
      · rw [if_neg h2]
        simp only [Bool.not_eq_true] at h2
        rw [h2]
        rfl
    · simp only [Bool.not_eq_true] at h1
      rw [h1, if_neg Bool.false_ne_true]
      rfl

/-- C6 counterexample: with exit code 0 and stderr consisting of exactly
one marker-prefixed line with blank content, the code reports the run
VALID, while the claim (no marker-prefixed line allowed) reports it
invalid. -/
theorem validation_prefix_only_line_counterexample :
    (validationOutcome 0 "gst_runner - ERROR - ").1 = true ∧
    specValidC6 0 "gst_runner - ERROR - " = false :=
  ⟨by rfl, by rfl⟩

/-- C9: a submitted validation request whose `max-runtime` parameter
does not coerce to an integer, or coerces to a value below 1, is
rejected synchronously: the returned registry is the unchanged input
registry and no worker is spawned; and whenever the graph serialises
successfully (so that parameter validation is what fires), the error is
specifically the parameter-validation error. -/
theorem bad_max_runtime_rejected_synchronously
    (L : Lookups) (jobs : List (String × VJob)) (g : Graph)
    (ps : List (String × PyVal)) (v : PyVal) (newJobId : String) (t : Int)
    (hv : pvGet ps "max-runtime" = some v)
    (hbad : pyIntCoerce v = none ∨ ∃ n, pyIntCoerce v = some n ∧ n < 1) :
    (∃ e, runValidation L jobs g (some ps) newJobId t = (jobs, .error e, none)) ∧
    (∀ desc, toPipelineDescription L g = .ok desc →
      ∃ msg, runValidation L jobs g (some ps) newJobId t =
        (jobs, .error (.paramErr msg), none)) := by
  unfold runValidation
  cases hd : toPipelineDescription L g with
  | error e =>
    constructor
    · exact ⟨.graphErr e, rfl⟩
    · intro desc hok
      cases hok
  | ok desc =>
    simp only [Option.getD_some, hv]
    rcases hbad with hnone | ⟨n, hn, hlt⟩
    · rw [hnone]
      constructor
      · exact ⟨.paramErr "Parameter max-runtime must be an integer.", rfl⟩
      · intro d hok
        exact ⟨"Parameter max-runtime must be an integer.", rfl⟩
    · rw [hn]
      dsimp only
      rw [if_pos hlt]
      constructor
      · exact ⟨.paramErr "Parameter max-runtime must be greater than or equal to 1.", rfl⟩
      · intro d hok
        exact ⟨"Parameter max-runtime must be greater than or equal to 1.", rfl⟩

/-- Witness for C9: submitting the two-node graph with
`max-runtime = "abc"` leaves the empty registry empty, raises the
parameter error synchronously, and spawns no worker. -/
theorem bad_max_runtime_rejected_synchronously_witness :
    (∃ e, runValidation noLookups [] twoNodeGraph
        (some [("max-runtime", PyVal.pyStr "abc")]) "job1" 0 =
      ([], .error e, none)) ∧
    (∀ desc, toPipelineDescription noLookups twoNodeGraph = .ok desc →
      ∃ msg, runValidation noLookups [] twoNodeGraph
          (some [("max-runtime", PyVal.pyStr "abc")]) "job1" 0 =
        ([], .error (.paramErr msg), none)) :=
  bad_max_runtime_rejected_synchronously noLookups [] twoNodeGraph
    [("max-runtime", PyVal.pyStr "abc")] (PyVal.pyStr "abc") "job1" 0
    (by rfl) (Or.inl (by rfl))

theorem option_or_none {α : Type} (a : Option α) : a.or none = a := by
  cases a <;> rfl

theorem option_or_assoc {α : Type} (a b c : Option α) :
    (a.or b).or c = a.or (b.or c) := by
  cases a <;> rfl

theorem getLast?_cons_or {α : Type} (a : α) (l : List α) :
    (a :: l).getLast? = l.getLast?.or (some a) := by
  cases l with
  | nil => rfl
  | cons b t =>
    rw [List.getLast?_cons_cons]
    cases hbt : (b :: t).getLast? with
    | none => exact absurd hbt (by simp)
    | some x => rfl

theorem natDictGet_insert (k : Nat) (v : FpsStats) (j : Nat) :
    ∀ d, natDictGet (natDictInsert k v d) j =
      if k = j then some v else natDictGet d j := by
  intro d
  induction d with
  | nil =>
    by_cases h : k = j
    · simp [natDictInsert, natDictGet, h]
    · simp [natDictInsert, natDictGet, h]
  | cons p rest ih =>
    obtain ⟨k1, v1⟩ := p
    by_cases h1 : k1 = k
    · subst h1
      by_cases h2 : k1 = j
      · simp [natDictInsert, natDictGet, h2]
      · simp [natDictInsert, natDictGet, h2]
    · by_cases h2 : k1 = j
      · subst h2
        have hkj : ¬ k = k1 := fun hk => h1 hk.symm
        simp [natDictInsert, natDictGet, h1, hkj]
      · simp [natDictInsert, natDictGet, h1, h2, ih]

theorem natContains_iff_mem (l : List Nat) (a : Nat) :
    l.contains a = true ↔ a ∈ l := by
  simp

theorem natDictInsert_keys (k : Nat) (v : FpsStats) :
    ∀ d, (natDictInsert k v d).map Prod.fst =
      if (d.map Prod.fst).contains k then d.map Prod.fst
      else d.map Prod.fst ++ [k] := by
  intro d
  induction d with
  | nil => rfl
  | cons p rest ih =>
    obtain ⟨k1, v1⟩ := p
    unfold natDictInsert
    simp only [List.map_cons]
    by_cases h1 : k1 = k
    · subst h1
      rw [if_pos rfl]
      have hc : ((k1 :: rest.map Prod.fst).contains k1) = true :=
        (natContains_iff_mem _ _).mpr (List.mem_cons_self _ _)
      rw [if_pos hc]
      simp only [List.map_cons]
    · rw [if_neg h1]
      simp only [List.map_cons, ih]
      by_cases h2 : k ∈ rest.map Prod.fst
      · have hc2 : (rest.map Prod.fst).contains k = true :=
          (natContains_iff_mem _ _).mpr h2
        have hc3 : ((k1 :: rest.map Prod.fst).contains k) = true :=
          (natContains_iff_mem _ _).mpr (List.mem_cons_of_mem _ h2)
        rw [if_pos hc2, if_pos hc3]
      · have hc2 : (rest.map Prod.fst).contains k = false := by
          cases hcc : (rest.map Prod.fst).contains k
          · rfl
          · exact absurd ((natContains_iff_mem _ _).mp hcc) h2
        have hc3 : ((k1 :: rest.map Prod.fst).contains k) = false := by
          cases hcc : ((k1 :: rest.map Prod.fst).contains k)
          · rfl
          · rcases List.mem_cons.mp ((natContains_iff_mem _ _).mp hcc) with h | h
            · exact absurd h.symm h1
            · exact absurd h h2
        rw [if_neg (by rw [hc2]; exact Bool.false_ne_true),
            if_neg (by rw [hc3]; exact Bool.false_ne_true)]
        rfl

theorem natDictGet_mem_keys :
    ∀ (d : List (Nat × FpsStats)) (k : Nat), k ∈ d.map Prod.fst →
      ∃ v, natDictGet d k = some v := by
  intro d
  induction d with
  | nil => intro k h; cases h
  | cons p rest ih =>
    obtain ⟨k1, v1⟩ := p
    intro k h
    unfold natDictGet
    by_cases h1 : k1 = k
    · rw [if_pos h1]
      exact ⟨v1, rfl⟩
    · rw [if_neg h1]
      rcases List.mem_cons.mp h with h2 | h2
      · exact absurd h2.symm h1
      · exact ih k h2

theorem minKeyAux_mem (t : Nat) :
    ∀ (ks : List Nat) (b : Nat), minKeyAux t b ks ∈ b :: ks := by
  intro ks
  induction ks with
  | nil => intro b; exact List.mem_singleton.mpr rfl
  | cons k rest ih =>
    intro b
    unfold minKeyAux
    by_cases h : distNat k t < distNat b t
    · rw [if_pos h]
      rcases List.mem_cons.mp (ih k) with h2 | h2
      · rw [h2]
        exact List.mem_cons_of_mem _ (List.mem_cons_self _ _)
      · exact List.mem_cons_of_mem _ (List.mem_cons_of_mem _ h2)
    · rw [if_neg h]
      rcases List.mem_cons.mp (ih b) with h2 | h2
      · rw [h2]
        exact List.mem_cons_self _ _
      · exact List.mem_cons_of_mem _ (List.mem_cons_of_mem _ h2)

theorem minKeyAux_min (t : Nat) :
    ∀ (ks : List Nat) (b : Nat) (x : Nat), x ∈ b :: ks →
      distNat (minKeyAux t b ks) t ≤ distNat x t := by
  intro ks
  induction ks with
  | nil =>
    intro b x hx
    rcases List.mem_cons.mp hx with h | h
    · rw [h]
      exact Nat.le_refl _
    · cases h
  | cons k rest ih =>
    intro b x hx
    unfold minKeyAux
    by_cases h : distNat k t < distNat b t
    · rw [if_pos h]
      rcases List.mem_cons.mp hx with hxb | hx2
      · rw [hxb]
        exact Nat.le_of_lt (Nat.lt_of_le_of_lt (ih k k (List.mem_cons_self _ _)) h)
      · rcases List.mem_cons.mp hx2 with hxk | hx3
        · rw [hxk]
          exact ih k k (List.mem_cons_self _ _)
        · exact ih k x (List.mem_cons_of_mem _ hx3)
    · rw [if_neg h]
      rcases List.mem_cons.mp hx with hxb | hx2
      · rw [hxb]
        exact ih b b (List.mem_cons_self _ _)
      · rcases List.mem_cons.mp hx2 with hxk | hx3
        · rw [hxk]
          exact Nat.le_trans (ih b b (List.mem_cons_self _ _)) (Nat.le_of_not_lt h)
        · exact ih b x (List.mem_cons_of_mem _ hx3)

theorem stepAvgLast_overallHit (l : FpsLine) (st : ExtractSt) :
    (stepAvgLast l st).overallHit = st.overallHit := by
  obtain ⟨ov, av, la⟩ := l
  cases av <;> cases la <;> rfl

theorem stepAvgLast_lastFps (l : FpsLine) (st : ExtractSt) :
    (stepAvgLast l st).lastFps = (l.last).or st.lastFps := by
  obtain ⟨ov, av, la⟩ := l
  cases av <;> cases la <;> rfl

theorem stepAvgLast_avgDict (l : FpsLine) (st : ExtractSt) :
    (stepAvgLast l st).avgDict =
      match l.avg with
      | some r => natDictInsert r.numberStreams r st.avgDict
      | none => st.avgDict := by
  obtain ⟨ov, av, la⟩ := l
  cases av <;> cases la <;> rfl

theorem natDedupSeen_cons (k : Nat) (rest seen : List Nat) :
    natDedupSeen (k :: rest) seen =
      if seen.contains k then natDedupSeen rest seen
      else k :: natDedupSeen rest (seen ++ [k]) := rfl

theorem fold_overallHit :
    ∀ (lines : List FpsLine) (st : ExtractSt),
      (List.foldl (fun s l => stepAvgLast l s) st lines).overallHit =
        st.overallHit := by
  intro lines
  induction lines with
  | nil => intro st; rfl
  | cons l rest ih =>
    intro st
    rw [List.foldl_cons, ih, stepAvgLast_overallHit]

theorem fold_lastFps :
    ∀ (lines : List FpsLine) (st : ExtractSt),
      (List.foldl (fun s l => stepAvgLast l s) st lines).lastFps =
        ((lines.filterMap FpsLine.last).getLast?).or st.lastFps := by
  intro lines
  induction lines with
  | nil => intro st; rfl
  | cons l rest ih =>
    intro st
    rw [List.foldl_cons, ih, stepAvgLast_lastFps, List.filterMap_cons]
    cases hl : l.last with
    | none => rfl
    | some r =>
      dsimp only
      rw [getLast?_cons_or, option_or_assoc]

theorem fold_dictGet :
    ∀ (lines : List FpsLine) (st : ExtractSt) (k : Nat),
      natDictGet (List.foldl (fun s l => stepAvgLast l s) st lines).avgDict k =
        ((avgEntriesFor k lines).getLast?).or (natDictGet st.avgDict k) := by
  intro lines
  induction lines with
  | nil => intro st k; rfl
  | cons l rest ih =>
    intro st k
    rw [List.foldl_cons, ih]
    unfold avgEntriesFor
    simp only [List.filterMap_cons]
    have hd := stepAvgLast_avgDict l st
    cases hl : l.avg with
    | none =>
      rw [hl] at hd
      dsimp only at hd
      rw [hd]
    | some r =>
      rw [hl] at hd
      dsimp only at hd
      rw [hd, natDictGet_insert]
      dsimp only
      by_cases hk : r.numberStreams = k
      · rw [if_pos hk, if_pos hk]
        dsimp only
        rw [getLast?_cons_or, option_or_assoc]
        rfl
      · rw [if_neg hk, if_neg hk]

theorem fold_keys :
    ∀ (lines : List FpsLine) (st : ExtractSt),
      (List.foldl (fun s l => stepAvgLast l s) st lines).avgDict.map Prod.fst =
        st.avgDict.map Prod.fst ++
          natDedupSeen
            (lines.filterMap (fun l => (l.avg).map FpsStats.numberStreams))
            (st.avgDict.map Prod.fst) := by
  intro lines
  induction lines with
  | nil =>
    intro st
    simp only [List.foldl_nil, List.filterMap_nil]
    rw [show natDedupSeen [] (st.avgDict.map Prod.fst) = [] from rfl,
        List.append_nil]
  | cons l rest ih =>
    intro st
    rw [List.foldl_cons, ih]
    simp only [List.filterMap_cons]
    have hd := stepAvgLast_avgDict l st
    cases hl : l.avg with
    | none =>
      rw [hl] at hd
      dsimp only at hd
      rw [hd]
      simp only [Option.map_none']
    | some r =>
      rw [hl] at hd
      dsimp only at hd
      rw [hd, natDictInsert_keys]
      simp only [Option.map_some']
      rw [natDedupSeen_cons]
      by_cases hc : (st.avgDict.map Prod.fst).contains r.numberStreams = true
      · rw [if_pos hc, if_pos hc]
      · have hcf : (st.avgDict.map Prod.fst).contains r.numberStreams = false := by
          cases hcc : (st.avgDict.map Prod.fst).contains r.numberStreams
          · rfl
          · exact absurd hcc hc
        rw [if_neg (by rw [hcf]; exact Bool.false_ne_true),
            if_neg (by rw [hcf]; exact Bool.false_ne_true),
            List.append_assoc]
        rfl

theorem extractLoop_no_win (total : Nat) :
    ∀ (lines : List FpsLine) (st : ExtractSt),
      specOverallWin total lines = none →
      extractLoop total lines st =
        List.foldl (fun s l => stepAvgLast l s) st lines := by
  intro lines
  induction lines with
  | nil => intro st h; rfl
  | cons l rest ih =>
    intro st h
    unfold specOverallWin at h
    simp only [List.filterMap_cons] at h
    unfold extractLoop
    cases hl : l.overall with
    | none =>
      rw [hl] at h
      dsimp only at h
      rw [List.foldl_cons]
      exact ih _ h
    | some r =>
      rw [hl] at h
      dsimp only at h
      by_cases hns : r.numberStreams = total
      · rw [if_pos hns] at h
        dsimp only at h
        rw [List.head?_cons] at h
        cases h
      · rw [if_neg hns] at h
        dsimp only at h
        dsimp only
        rw [if_neg hns, List.foldl_cons]
        exact ih _ h

theorem extractLoop_win (total : Nat) :
    ∀ (lines : List FpsLine) (st : ExtractSt) (r : FpsStats),
      specOverallWin total lines = some r →
      ∃ d lf, extractLoop total lines st = ⟨some r, d, lf⟩ := by
  intro lines
  induction lines with
  | nil =>
    intro st r h
    simp [specOverallWin] at h
  | cons l rest ih =>
    intro st r h
    unfold specOverallWin at h
    simp only [List.filterMap_cons] at h
    unfold extractLoop
    cases hl : l.overall with
    | none =>
      rw [hl] at h
      dsimp only at h
      exact ih _ r h
    | some r0 =>
      rw [hl] at h
      dsimp only at h
      by_cases hns : r0.numberStreams = total
      · rw [if_pos hns] at h
        dsimp only at h
        rw [List.head?_cons] at h
        injection h with h2
        dsimp only
        rw [if_pos hns]
        exact ⟨st.avgDict, st.lastFps, by rw [h2]⟩
      · rw [if_neg hns] at h
        dsimp only at h
        dsimp only
        rw [if_neg hns]
        exact ih _ r h

/-- C5: the reported metrics follow the claimed priority: an `overall`
match with the configured stream count wins outright; otherwise the
most recent `average` entry for the exact stream count; otherwise the
latest `average` entry of a stream count at minimal distance from the
configured one; otherwise the most recently seen `last` entry; and
zeros when none exist. -/
theorem metrics_selection_priority (total : Nat) (lines : List FpsLine) :
    (∀ r, specOverallWin total lines = some r →
      runNormalMetrics total lines = fpsTriple r) ∧
    (specOverallWin total lines = none →
      ∀ r, specAvgLatest total lines = some r →
        runNormalMetrics total lines = fpsTriple r) ∧
    (specOverallWin total lines = none →
      specAvgLatest total lines = none →
      avgStreamKeys lines ≠ [] →
      ∃ k r, k ∈ avgStreamKeys lines ∧
        (∀ k2 ∈ avgStreamKeys lines, distNat k total ≤ distNat k2 total) ∧
        specAvgLatest k lines = some r ∧
        runNormalMetrics total lines = fpsTriple r) ∧
    (specOverallWin total lines = none →
      avgStreamKeys lines = [] →
      ∀ r, specLastEntry lines = some r →
        runNormalMetrics total lines = fpsTriple r) ∧
    (specOverallWin total lines = none →
      avgStreamKeys lines = [] →
      specLastEntry lines = none →
      runNormalMetrics total lines = (0, 0, 0)) := by
  have hsel : specOverallWin total lines = none →
      runNormalMetrics total lines =
        selectMetrics total
          (List.foldl (fun s l => stepAvgLast l s) initialExtractSt lines) := by
    intro h
    unfold runNormalMetrics
    rw [extractLoop_no_win total lines initialExtractSt h]
  have hoh : (List.foldl (fun s l => stepAvgLast l s) initialExtractSt
      lines).overallHit = none :=
    fold_overallHit lines initialExtractSt
  have hget : ∀ k,
      natDictGet (List.foldl (fun s l => stepAvgLast l s) initialExtractSt
        lines).avgDict k = specAvgLatest k lines := by
    intro k
    rw [fold_dictGet]
    rw [show natDictGet initialExtractSt.avgDict k = none from rfl]
    rw [option_or_none]
    rfl
  have hkeys : (List.foldl (fun s l => stepAvgLast l s) initialExtractSt
      lines).avgDict.map Prod.fst = avgStreamKeys lines := by
    rw [fold_keys]
    rfl
  have hlastf : (List.foldl (fun s l => stepAvgLast l s) initialExtractSt
      lines).lastFps = specLastEntry lines := by
    rw [fold_lastFps]
    rw [show initialExtractSt.lastFps = (none : Option FpsStats) from rfl]
    rw [option_or_none]
    rfl
  refine ⟨?_, ?_, ?_, ?_, ?_⟩
  · intro r hwin
    obtain ⟨d, lf, hloop⟩ := extractLoop_win total lines initialExtractSt r hwin
    unfold runNormalMetrics
    rw [hloop]
    rfl
  · intro hnone r havg
    rw [hsel hnone]
    unfold selectMetrics
    rw [hoh]
    dsimp only
    cases hd : (List.foldl (fun s l => stepAvgLast l s) initialExtractSt
        lines).avgDict with
    | nil =>
      exfalso
      have hg := hget total
      rw [hd, havg] at hg
      simp [natDictGet] at hg
    | cons p rest =>
      obtain ⟨k0, v0⟩ := p
      dsimp only
      have hg := hget total
      rw [hd, havg] at hg
      rw [hg]
  · intro hnone hexact hne
    rw [hsel hnone]
    unfold selectMetrics
    rw [hoh]
    dsimp only
    cases hd : (List.foldl (fun s l => stepAvgLast l s) initialExtractSt
        lines).avgDict with
    | nil =>
      exfalso
      apply hne
      rw [← hkeys, hd]
      rfl
    | cons p rest =>
      obtain ⟨k0, v0⟩ := p
      dsimp only
      have hg := hget total
      rw [hd, hexact] at hg
      rw [hg]
      dsimp only
      have hkmem : minKeyAux total k0 (rest.map Prod.fst) ∈
          ((k0, v0) :: rest).map Prod.fst := by
        rw [List.map_cons]
        exact minKeyAux_mem total (rest.map Prod.fst) k0
      obtain ⟨v, hv⟩ := natDictGet_mem_keys _ _ hkmem
      refine ⟨minKeyAux total k0 (rest.map Prod.fst), v, ?_, ?_, ?_, ?_⟩
      · rw [← hkeys, hd]
        exact hkmem
      · intro k2 hk2
        rw [← hkeys, hd, List.map_cons] at hk2
        exact minKeyAux_min total (rest.map Prod.fst) k0 k2 hk2
      · rw [← hget (minKeyAux total k0 (rest.map Prod.fst)), hd]
        exact hv
      · rw [hv]
  · intro hnone hknil r hlastsome
    rw [hsel hnone]
    unfold selectMetrics
    rw [hoh]
    dsimp only
    cases hd : (List.foldl (fun s l => stepAvgLast l s) initialExtractSt
        lines).avgDict with
    | nil =>
      dsimp only
      rw [hlastf, hlastsome]
    | cons p rest =>
      exfalso
      obtain ⟨k0, v0⟩ := p
      rw [hd, hknil] at hkeys
      simp only [List.map_cons] at hkeys
      cases hkeys
  · intro hnone hknil hlastnone
    rw [hsel hnone]
    unfold selectMetrics
    rw [hoh]
    dsimp only
    cases hd : (List.foldl (fun s l => stepAvgLast l s) initialExtractSt
        lines).avgDict with
    | nil =>
      dsimp only
      rw [hlastf, hlastnone]
    | cons p rest =>
      exfalso
      obtain ⟨k0, v0⟩ := p
      rw [hd, hknil] at hkeys
      simp only [List.map_cons] at hkeys
      cases hkeys

/-- Witness for C5: with no `overall` win and no exact `average` match,
the selected metrics come from the latest entry of a minimal-distance
stream count. -/
theorem metrics_selection_priority_witness :
    ∃ k r, k ∈ avgStreamKeys fpsLinesExample ∧
      (∀ k2 ∈ avgStreamKeys fpsLinesExample, distNat k 2 ≤ distNat k2 2) ∧
      specAvgLatest k fpsLinesExample = some r ∧
      runNormalMetrics 2 fpsLinesExample = fpsTriple r :=
  (metrics_selection_priority 2 fpsLinesExample).2.2.1 (by rfl) (by rfl)
    (by decide)

end Vippet

